import Mathlib

/-
Verification of the gridlock layout core: a shallow embedding of the Go
source (config data model, pane resolution, working-directory resolution,
layout compilation into tmux command sequences, and the tmux layout-string
parser), with theorems checking the specification's claims against it.

Go strings are embedded as `List Char`; Go's `(value, error)` returns as
`Option`/`Except`; the tmux side effects of `t.run(args...)` are embedded
as explicitly returned lists of argument vectors. The home directory
obtained from `os.UserHomeDir()` is passed in as a parameter (the no-error
case), since it is ambient process state.
-/

/-- Go strings, embedded as lists of characters. -/
abbrev Str := List Char

/-- A single tmux invocation `tmux args...`: the argument vector passed to
`t.run`. -/
abbrev Cmd := List Str

/-- Coerces a Lean string literal to the `List Char` embedding. -/
def str (s : String) : Str := s.data

/-- Decimal rendering of a natural number, as Go's `fmt.Sprintf("%d", n)`
produces for non-negative values. -/
def natToStr (n : Nat) : Str := Nat.toDigits 10 n

/-- Embeds `strings.LastIndex(s, sub)`: index of the last occurrence of
`sub` in `s`, or none when absent. -/
def lastIndexGo (s sub : Str) : Option Nat :=
  (List.range (s.length + 1)).reverse.find? (fun i => sub.isPrefixOf (s.drop i))

/-- Embeds the Go struct `PaneConfig`. -/
structure PaneConfig where
  name : Str
  workingDirectory : Str
  command : Str
  commands : List Str
deriving Repr, DecidableEq

/-- Embeds the Go struct `LayoutNode`: a pane name with columns and rows
child lists, exactly one of which is populated for well-formed values. -/
inductive LayoutNode where
  | mk (paneName : Str) (columns : List LayoutNode) (rows : List LayoutNode)

instance : Inhabited LayoutNode := ⟨.mk [] [] []⟩

/-- The pane-name field of a layout node. -/
def LayoutNode.paneName : LayoutNode → Str
  | .mk pn _ _ => pn

/-- The columns field of a layout node. -/
def LayoutNode.columns : LayoutNode → List LayoutNode
  | .mk _ cols _ => cols

/-- The rows field of a layout node. -/
def LayoutNode.rows : LayoutNode → List LayoutNode
  | .mk _ _ rows => rows

/-- Embeds the Go struct `WindowConfig`. -/
structure WindowConfig where
  name : Str
  workingDirectory : Str
  panes : List PaneConfig
  layout : LayoutNode

/-- Embeds the Go struct `SessionConfig`. -/
structure SessionConfig where
  name : Str
  workingDirectory : Str
  windows : List WindowConfig

/-- Embeds the Go struct `Config`. -/
structure Config where
  session : SessionConfig

/-- The trailing `-pane-<N>` token of a stored pane name: the slice of the
name from the last occurrence of `-pane-`, or the whole name when the
token is absent (from the body of `findPane`). -/
def paneMatchSuffix (pname : Str) : Str :=
  match lastIndexGo pname (str "-pane-") with
  | some idx => pname.drop idx
  | none => pname

/-- The per-pane test of the `findPane` loop: exact name equality, or the
query name ends with the stored pane's `-pane-<N>` suffix token. -/
def paneMatches (name : Str) (p : PaneConfig) : Bool :=
  p.name == name || (paneMatchSuffix p.name).isSuffixOf name

/-- Embeds `findPane(window, name)`: the first pane of the window whose
name matches exactly or by the `-pane-<N>` suffix rule. -/
def findPane (window : WindowConfig) (name : Str) : Option PaneConfig :=
  window.panes.find? (paneMatches name)

/-- Models `filepath.Join(a, b)` for the shapes arising here: single-`/`
joining; path cleaning of `.`/`..`/duplicate separators is not modelled. -/
def filepathJoin (a b : Str) : Str :=
  if a == [] then b
  else if b == [] then a
  else a ++ '/' :: b

/-- Embeds `expandPath(path)`. The result of `os.UserHomeDir()` is the
parameter `home` (no-error case). -/
def expandPath (home : Str) (path : Str) : Str :=
  if (str "~/").isPrefixOf path || path == str "~" then
    if path == str "~" then home
    else filepathJoin home (path.drop 2)
  else path

/-- Embeds `getWorkDirForNode(node, window, sessionWorkDir)`: pane
directory when the node is a leaf whose pane resolves and has one, else
window directory, else session directory, each home-expanded; containers
recurse into their first child. -/
def getWorkDirForNode (home : Str) (node : LayoutNode) (window : WindowConfig)
    (sessionWorkDir : Str) : Str :=
  match node with
  | .mk pn cols rows =>
    if pn ≠ [] then
      match findPane window pn with
      | some p =>
        if p.workingDirectory ≠ [] then expandPath home p.workingDirectory
        else if window.workingDirectory ≠ [] then expandPath home window.workingDirectory
        else expandPath home sessionWorkDir
      | none =>
        if window.workingDirectory ≠ [] then expandPath home window.workingDirectory
        else expandPath home sessionWorkDir
    else
      match cols with
      | c :: _ => getWorkDirForNode home c window sessionWorkDir
      | [] =>
        match rows with
        | r :: _ => getWorkDirForNode home r window sessionWorkDir
        | [] => expandPath home sessionWorkDir
termination_by structural node

/-- The `%s.%d` pane target string `windowTarget.<index>`. -/
def paneTargetStr (windowTarget : Str) (i : Nat) : Str :=
  windowTarget ++ '.' :: natToStr i

/-- One iteration of the split-emission loop inside `applyLayout`: the
`split-window` argument vector for split `i` of a container with the given
children, including the computed percentage and the optional seed working
directory of child `i+1`. -/
def splitCmdFor (home : Str) (dirFlag : Str) (windowTarget : Str) (paneTarget : Nat)
    (children : List LayoutNode) (window : WindowConfig) (sessionWorkDir : Str)
    (i : Nat) : Cmd :=
  let n := children.length
  let percentage := 100 * (n - 1 - i) / (n - i)
  let splitArgs := [str "split-window", dirFlag, str "-p", natToStr percentage,
                    str "-t", paneTargetStr windowTarget (paneTarget + i)]
  let workDir := getWorkDirForNode home (children.getD (i + 1) default) window sessionWorkDir
  if workDir ≠ [] then splitArgs ++ [str "-c", workDir] else splitArgs

mutual
/-- Embeds `(t *TMUX) applyLayout(windowTarget, paneTarget, node, window,
sessionWorkDir) int`: returns the list of tmux invocations emitted through
`t.run` (in order) together with the Go return value, the next pane
index. -/
def applyLayout (home : Str) (windowTarget : Str) (paneTarget : Nat) (node : LayoutNode)
    (window : WindowConfig) (sessionWorkDir : Str) : List Cmd × Nat :=
  match node with
  | .mk pn cols rows =>
    if pn ≠ [] then
      let cmds : List Cmd :=
        match findPane window pn with
        | some paneConfig =>
          (if paneConfig.command ≠ [] then
            [[str "send-keys", str "-t", paneTargetStr windowTarget paneTarget,
              paneConfig.command, str "C-m"]]
           else []) ++
          paneConfig.commands.map (fun cmd =>
            [str "send-keys", str "-t", paneTargetStr windowTarget paneTarget,
             cmd, str "C-m"])
        | none => []
      (cmds, paneTarget + 1)
    else if cols.length > 0 then
      let splits := (List.range (cols.length - 1)).map
        (splitCmdFor home (str "-h") windowTarget paneTarget cols window sessionWorkDir)
      let rest := applyLayoutList home windowTarget paneTarget cols window sessionWorkDir
      (splits ++ rest.1, rest.2)
    else if rows.length > 0 then
      let splits := (List.range (rows.length - 1)).map
        (splitCmdFor home (str "-v") windowTarget paneTarget rows window sessionWorkDir)
      let rest := applyLayoutList home windowTarget paneTarget rows window sessionWorkDir
      (splits ++ rest.1, rest.2)
    else
      ([], paneTarget + 1)
termination_by structural node

/-- The child-recursion loop of `applyLayout`: visits children in order,
threading the running pane index, concatenating emitted commands. -/
def applyLayoutList (home : Str) (windowTarget : Str) (paneTarget : Nat)
    (nodes : List LayoutNode) (window : WindowConfig) (sessionWorkDir : Str) :
    List Cmd × Nat :=
  match nodes with
  | [] => ([], paneTarget)
  | c :: cs =>
    let r1 := applyLayout home windowTarget paneTarget c window sessionWorkDir
    let r2 := applyLayoutList home windowTarget r1.2 cs window sessionWorkDir
    (r1.1 ++ r2.1, r2.2)
termination_by structural nodes
end

/-- The window-configuration loop of `main` (part of the driver): for each
window beyond the first a `new-window` command with the directory fallback,
then the window's layout compilation. `i` is the loop index. -/
def windowSetupCmds (home : Str) (sessionName : Str) (sessionWorkDir : Str) :
    Nat → List WindowConfig → List Cmd
  | _, [] => []
  | i, w :: ws =>
    let newWinCmds : List Cmd :=
      if i > 0 then
        [[str "new-window", str "-d", str "-t", sessionName, str "-n", w.name] ++
          (if w.workingDirectory ≠ [] then [str "-c", expandPath home w.workingDirectory]
           else if sessionWorkDir ≠ [] then [str "-c", expandPath home sessionWorkDir]
           else [])]
      else []
    let windowTarget := sessionName ++ ':' :: w.name
    newWinCmds ++ (applyLayout home windowTarget 0 w.layout w sessionWorkDir).1 ++
      windowSetupCmds home sessionName sessionWorkDir (i + 1) ws

/-- Embeds the command-emitting body of `main` after the config is loaded:
the has-session probe, the recreate kill, session creation and window
configuration when no session survives the probe, and the final
attach/switch transition. `probeOk` models `err == nil` from the
has-session probe; `inTMUX` models `os.Getenv("TMUX") != ""`. -/
def driverCommands (home : Str) (config : Config)
    (probeOk recreate dryRun detached inTMUX : Bool) : List Cmd :=
  let sessionName := config.session.name
  let probe : List Cmd := [[str "has-session", str "-t", sessionName]]
  let killCmds : List Cmd :=
    if probeOk && !dryRun && recreate then
      [[str "kill-session", str "-t", sessionName]]
    else []
  let sessionExists := probeOk && !dryRun && !recreate
  let configCmds : List Cmd :=
    if sessionExists then []
    else
      let newSessionArgs :=
        [str "new-session", str "-d", str "-s", sessionName] ++
        (if config.session.workingDirectory ≠ [] then
          [str "-c", expandPath home config.session.workingDirectory]
         else []) ++
        (match config.session.windows with
         | [] => []
         | w :: _ => [str "-n", w.name])
      [newSessionArgs] ++
        windowSetupCmds home sessionName config.session.workingDirectory 0
          config.session.windows
  let attachCmds : List Cmd :=
    if !detached then
      if inTMUX then [[str "switch-client", str "-t", sessionName]]
      else [[str "attach-session", str "-t", sessionName]]
    else []
  probe ++ killCmds ++ configCmds ++ attachCmds

/-- The length of the leading run of decimal digits of `s` (what one `\d+`
fragment of the Go regexes consumes). -/
def digitRunLen (s : Str) : Nat := (s.takeWhile Char.isDigit).length

/-- Embeds the anchored Go regexp match of `^\d+x\d+,\d+,\d+` used by both
parseTmuxLayout and splitLayoutChildren: the length of the geometry token
`WxH,X,Y` matched at the start of `s`, or none when the regexp does not
match (`loc == nil`). -/
def matchGeomLen (s : Str) : Option Nat :=
  if digitRunLen s == 0 then none else
  match s.drop (digitRunLen s) with
  | 'x' :: r1 =>
    if digitRunLen r1 == 0 then none else
    match r1.drop (digitRunLen r1) with
    | ',' :: r2 =>
      if digitRunLen r2 == 0 then none else
      match r2.drop (digitRunLen r2) with
      | ',' :: r3 =>
        if digitRunLen r3 == 0 then none else
        some (digitRunLen s + 1 + digitRunLen r1 + 1 + digitRunLen r2 + 1 + digitRunLen r3)
      | _ => none
    | _ => none
  | _ => none

theorem digitRunLen_le (s : Str) : digitRunLen s ≤ s.length := by
  induction s with
  | nil => simp [digitRunLen]
  | cons a l ih =>
    by_cases h : Char.isDigit a <;>
      simp [digitRunLen, List.takeWhile_cons, h] at ih ⊢ <;> omega

theorem matchGeomLen_pos {s : Str} {g : Nat} (h : matchGeomLen s = some g) : 0 < g := by
  unfold matchGeomLen at h
  split at h
  · exact absurd h (by simp)
  split at h
  next r1 hr1 =>
    split at h
    · exact absurd h (by simp)
    split at h
    next r2 hr2 =>
      split at h
      · exact absurd h (by simp)
      split at h
      next r3 hr3 =>
        split at h
        · exact absurd h (by simp)
        injection h with h
        omega
      next => exact absurd h (by simp)
    next => exact absurd h (by simp)
  next => exact absurd h (by simp)

theorem matchGeomLen_le {s : Str} {g : Nat} (h : matchGeomLen s = some g) :
    g ≤ s.length := by
  have hlen1 : digitRunLen s ≤ s.length := digitRunLen_le s
  unfold matchGeomLen at h
  split at h
  · exact absurd h (by simp)
  split at h
  next r1 hr1 =>
    have h1' : (s.drop (digitRunLen s)).length = s.length - digitRunLen s := by simp
    rw [hr1] at h1'
    have hlen2 : digitRunLen r1 ≤ r1.length := digitRunLen_le r1
    split at h
    · exact absurd h (by simp)
    split at h
    next r2 hr2 =>
      have h2' : (r1.drop (digitRunLen r1)).length = r1.length - digitRunLen r1 := by simp
      rw [hr2] at h2'
      have hlen3 : digitRunLen r2 ≤ r2.length := digitRunLen_le r2
      split at h
      · exact absurd h (by simp)
      split at h
      next r3 hr3 =>
        have h3' : (r2.drop (digitRunLen r2)).length = r2.length - digitRunLen r2 := by simp
        rw [hr3] at h3'
        have hlen4 : digitRunLen r3 ≤ r3.length := digitRunLen_le r3
        split at h
        · exact absurd h (by simp)
        injection h with h
        simp at h1' h2' h3'
        omega
      next hne => exact absurd h (by simp)
    next hne => exact absurd h (by simp)
  next hne => exact absurd h (by simp)

/-- Embeds the depth-tracking bracket scan inside splitLayoutChildren: the
number of characters consumed from `s` while the depth counter (starting
at `d`) stays positive; each consumed character adjusts the depth by the
open/close characters `o`/`c`. -/
def scanBal (o c : Char) (d : Nat) : Str → Nat
  | [] => 0
  | ch :: rest =>
    if d == 0 then 0
    else 1 + scanBal o c (if ch == o then d + 1 else if ch == c then d - 1 else d) rest

theorem scanBal_le (o c : Char) (d : Nat) (s : Str) : scanBal o c d s ≤ s.length := by
  induction s generalizing d with
  | nil => simp [scanBal]
  | cons ch rest ih =>
    simp only [scanBal, List.length_cons]
    split
    · omega
    · have := ih (if ch == o then d + 1 else if ch == c then d - 1 else d)
      omega

/-- The cursor position at the end of one child inside the loop of
splitLayoutChildren, given the geometry-match length `g`: a leaf's `,ID`
digits are consumed, a container's depth-balanced brace/bracket span is
consumed, any other character leaves the cursor at `g`. -/
def childEndCursor (s : Str) (g : Nat) : Nat :=
  if s.getD g ' ' == ',' then g + 1 + digitRunLen (s.drop (g + 1))
  else if s.getD g ' ' == '\x7b' then g + 1 + scanBal '\x7b' '\x7d' 1 (s.drop (g + 1))
  else if s.getD g ' ' == '[' then g + 1 + scanBal '[' ']' 1 (s.drop (g + 1))
  else g

/-- The cursor from which the splitLayoutChildren loop continues after one
child: the child's end, plus one when a separating comma follows. -/
def childSkipCursor (s : Str) (g : Nat) : Nat :=
  if childEndCursor s g < s.length && s.getD (childEndCursor s g) ' ' == ',' then
    childEndCursor s g + 1
  else childEndCursor s g

theorem le_childEndCursor (s : Str) (g : Nat) : g ≤ childEndCursor s g := by
  unfold childEndCursor
  repeat' split
  all_goals omega

theorem le_childSkipCursor (s : Str) (g : Nat) : g ≤ childSkipCursor s g := by
  have := le_childEndCursor s g
  unfold childSkipCursor
  split <;> omega

theorem childEndCursor_le (s : Str) (g : Nat) (h : g < s.length) :
    childEndCursor s g ≤ s.length := by
  have h1 := scanBal_le '\x7b' '\x7d' 1 (s.drop (g + 1))
  have h2 := scanBal_le '[' ']' 1 (s.drop (g + 1))
  have h3 := digitRunLen_le (s.drop (g + 1))
  simp only [List.length_drop] at h1 h2 h3
  unfold childEndCursor
  repeat' split
  all_goals omega

/-- Embeds splitLayoutChildren(s): cuts a container's inner content into
its children's strings by re-matching the geometry token at the cursor and
then skipping a `,ID` tail (leaf) or a depth-balanced brace/bracket span
(container); a segment with no geometry match ends the loop. -/
def splitLayoutChildren (s : Str) : List Str :=
  match hm : matchGeomLen s with
  | none => []
  | some g =>
    if hlen : s.length ≤ g then [s]
    else
      s.take (childEndCursor s g) :: splitLayoutChildren (s.drop (childSkipCursor s g))
termination_by s.length
decreasing_by
  have hg := matchGeomLen_pos hm
  have hsk := le_childSkipCursor s g
  simp only [List.length_drop]
  omega

theorem splitLayoutChildren_none {s : Str} (hm : matchGeomLen s = none) :
    splitLayoutChildren s = [] := by
  rw [splitLayoutChildren.eq_def]
  split
  · rfl
  next g2 hm2 => rw [hm2] at hm; cases hm

theorem splitLayoutChildren_last {s : Str} {g : Nat} (hm : matchGeomLen s = some g)
    (hlen : s.length ≤ g) : splitLayoutChildren s = [s] := by
  rw [splitLayoutChildren.eq_def]
  split
  next hm2 => rw [hm2] at hm; cases hm
  next g2 hm2 =>
    rw [hm2] at hm
    injection hm with hg
    subst hg
    rw [dif_pos hlen]

theorem splitLayoutChildren_cons {s : Str} {g : Nat} (hm : matchGeomLen s = some g)
    (hlen : ¬ s.length ≤ g) :
    splitLayoutChildren s =
      s.take (childEndCursor s g) :: splitLayoutChildren (s.drop (childSkipCursor s g)) := by
  rw [splitLayoutChildren.eq_def]
  split
  next hm2 => rw [hm2] at hm; cases hm
  next g2 hm2 =>
    rw [hm2] at hm
    injection hm with hg
    subst hg
    rw [dif_neg hlen]

theorem childEndCursor_le_childSkipCursor (s : Str) (g : Nat) :
    childEndCursor s g ≤ childSkipCursor s g := by
  unfold childSkipCursor
  split <;> omega

/-- Total length of a list of strings. -/
def sumLens (l : List Str) : Nat := (l.map List.length).sum

theorem splitLayoutChildren_sumLens (s : Str) :
    sumLens (splitLayoutChildren s) ≤ s.length := by
  induction s using splitLayoutChildren.induct with
  | case1 s hm => rw [splitLayoutChildren_none hm]; simp [sumLens]
  | case2 s g hm hlen => rw [splitLayoutChildren_last hm hlen]; simp [sumLens]
  | case3 s g hm hlen ih =>
    rw [splitLayoutChildren_cons hm hlen]
    have h2 := childEndCursor_le_childSkipCursor s g
    simp only [sumLens, List.map_cons, List.sum_cons, List.length_take, List.length_drop] at ih ⊢
    omega

/-- Decimal value of a digit string. -/
def digitsVal (s : Str) : Nat := s.foldl (fun acc c => acc * 10 + (c.toNat - '0'.toNat)) 0

/-- The largest value of Go's 64-bit `int`, the parse target of
strconv.Atoi on the supported platforms: 2^63 - 1. -/
def int64Max : Nat := 9223372036854775807

/-- Embeds strconv.Atoi: an optional sign followed by a nonempty all-digit
string parses to its value; anything else is an error (none), and so is a
value outside the 64-bit int range [-9223372036854775808,
9223372036854775807] (strconv.ErrRange makes Atoi return a non-nil
error, which the caller treats like any other parse failure). -/
def atoiGo (s : Str) : Option Int :=
  match s with
  | [] => none
  | ch :: rest =>
    if ch == '+' then
      if rest.isEmpty then none
      else if rest.all Char.isDigit then
        if digitsVal rest ≤ int64Max then some (digitsVal rest) else none
      else none
    else if ch == '-' then
      if rest.isEmpty then none
      else if rest.all Char.isDigit then
        if digitsVal rest ≤ int64Max + 1 then some (-(digitsVal rest : Int)) else none
      else none
    else if (ch :: rest).all Char.isDigit then
      if digitsVal (ch :: rest) ≤ int64Max then some (digitsVal (ch :: rest)) else none
    else none

/-- Go's `fmt.Sprintf("%d", i)` rendering of an int. -/
def intToStrGo (i : Int) : Str :=
  if i < 0 then '-' :: natToStr i.natAbs else natToStr i.toNat

/-- One character of the checksum character class `[0-9a-f]`. -/
def isHexLower (c : Char) : Bool :=
  ('0' ≤ c && c ≤ '9') || ('a' ≤ c && c ≤ 'f')

/-- Embeds the checksum-stripping step at the top of parseTmuxLayout: when
the text before the first comma matches `^[0-9a-f]\x7b4\x7d$`, drop it and
the comma. -/
def stripChecksum (layout : Str) : Str :=
  match layout.findIdx? (· == ',') with
  | none => layout
  | some idx =>
    if (layout.take idx).length == 4 && (layout.take idx).all isHexLower then
      layout.drop (idx + 1)
    else layout

theorem stripChecksum_length_le (layout : Str) :
    (stripChecksum layout).length ≤ layout.length := by
  unfold stripChecksum
  split
  · exact Nat.le_refl _
  · split
    · simp
    · exact Nat.le_refl _

/-- Outcome of a call to the Go parseTmuxLayout: a returned node, a
returned error, or a runtime panic (crash). The crash arises from indexing
`content[len(content)-1]` with empty content; no caller recovers from it,
so it aborts the whole capture. -/
inductive ParseRes (α : Type) where
  | ok (val : α)
  | error (e : Str)
  | crash

mutual
/-- Embeds parseTmuxLayout(layout, paneMap): strips an optional 4-hex-digit
checksum prefix, requires the `WxH,X,Y` geometry token, then parses a leaf
`,ID` (resolved through the pane map, with the `unknown-pane-<ID>`
placeholder for unknown IDs) or a brace/bracket container whose inner
content is cut by splitLayoutChildren and parsed recursively. When the
container content is empty, the check `content[len(content)-1] != '\x7d'`
indexes position -1: a Go runtime panic, embedded as `.crash`; a nonempty
content with the wrong last character is the mismatch error. -/
def parseTmuxLayout (paneMap : List (Int × Str)) (layout0 : Str) : ParseRes LayoutNode :=
  match hm : matchGeomLen (stripChecksum layout0) with
  | none => .error (str "invalid layout format")
  | some g =>
    match hr : (stripChecksum layout0).drop g with
    | [] => .error (str "unexpected end of layout string")
    | firstChar :: content =>
      if firstChar == ',' then
        match atoiGo content with
        | none => .error (str "invalid pane ID")
        | some id =>
          match paneMap.lookup id with
          | some name => .ok (.mk name [] [])
          | none => .ok (.mk (str "unknown-pane-" ++ intToStrGo id) [] [])
      else if firstChar == '\x7b' then
        match content.getLast? with
        | some '\x7d' =>
          match parseChildren paneMap (splitLayoutChildren content.dropLast) with
          | .error e => .error e
          | .crash => .crash
          | .ok nodes => .ok (.mk [] nodes [])
        | none => .crash
        | some _ => .error (str "mismatched braces in layout")
      else if firstChar == '[' then
        match content.getLast? with
        | some ']' =>
          match parseChildren paneMap (splitLayoutChildren content.dropLast) with
          | .error e => .error e
          | .crash => .crash
          | .ok nodes => .ok (.mk [] [] nodes)
        | none => .crash
        | some _ => .error (str "mismatched brackets in layout")
      else .error (str "unexpected character after geometry")
termination_by (layout0.length, 0)
decreasing_by
  all_goals
    apply Prod.Lex.left
    have h1 := splitLayoutChildren_sumLens content.dropLast
    have h2 := matchGeomLen_pos hm
    have h3 := stripChecksum_length_le layout0
    have h4 : ((stripChecksum layout0).drop g).length = (stripChecksum layout0).length - g := by
      simp
    rw [hr] at h4
    simp only [List.length_cons, List.length_dropLast] at h1 h4 ⊢
    omega

/-- The child-parsing loop of parseTmuxLayout: parses each child string in
order, propagating the first error; a panic in a child propagates
unconditionally. -/
def parseChildren (paneMap : List (Int × Str)) (children : List Str) :
    ParseRes (List LayoutNode) :=
  match children with
  | [] => .ok []
  | c :: cs =>
    match parseTmuxLayout paneMap c with
    | .error e => .error e
    | .crash => .crash
    | .ok node =>
      match parseChildren paneMap cs with
      | .error e => .error e
      | .crash => .crash
      | .ok nodes => .ok (node :: nodes)
termination_by (sumLens children, children.length + 1)
decreasing_by
  all_goals
    rw [Prod.lex_iff]
    simp only [sumLens, List.map_cons, List.sum_cons, List.length_cons]
    omega
end

/-- Embeds the per-window layout computation of captureCurrentSession
(part_000 lines 448-458): decode the window's layout string; on a returned
decode error fall back to a flat single-level columns layout over the
window's panes in listing order (the warning log is I/O and not embedded).
A parse panic propagates out of captureCurrentSession — nothing in the
repository recovers — so the capture aborts, embedded as `none`. -/
def captureWindowLayout (paneMap : List (Int × Str)) (layoutStr : Str)
    (panes : List PaneConfig) : Option LayoutNode :=
  match parseTmuxLayout paneMap layoutStr with
  | .ok node => some node
  | .error _ => some (.mk [] (panes.map (fun p => .mk p.name [] [])) [])
  | .crash => none

/-- Strong induction for the nested inductive LayoutNode. -/
theorem layoutNode_strong_ind (P : LayoutNode → Prop)
    (h : ∀ pn cols rows, (∀ c ∈ cols, P c) → (∀ r ∈ rows, P r) →
      P (LayoutNode.mk pn cols rows)) :
    ∀ n, P n := by
  have key : ∀ k n, sizeOf n ≤ k → P n := by
    intro k
    induction k with
    | zero =>
      intro n hn
      cases n with
      | mk pn cols rows => simp at hn
    | succ k ih =>
      intro n hn
      cases n with
      | mk pn cols rows =>
        apply h
        · intro c hc
          apply ih
          have h1 := List.sizeOf_lt_of_mem hc
          simp at hn
          omega
        · intro r hr
          apply ih
          have h1 := List.sizeOf_lt_of_mem hr
          simp at hn
          omega
  intro n
  exact key (sizeOf n) n (Nat.le_refl _)

/-- Abstract syntax of well-formed native layout strings, used to quantify
over every well-formed decoder input: a node is a leaf `WxH,X,Y,ID`, or a
brace (columns) or bracket (rows) container `WxH,X,Y` followed by its
comma-separated children. Geometry fields and the leaf ID are carried as
digit strings. -/
inductive LayoutSyn where
  | leaf (w h x y idStr : Str)
  | cols (w h x y : Str) (children : List LayoutSyn)
  | rows (w h x y : Str) (children : List LayoutSyn)

/-- Strong induction for the nested inductive LayoutSyn. -/
theorem layoutSyn_strong_ind (P : LayoutSyn → Prop)
    (hleaf : ∀ w h x y i, P (LayoutSyn.leaf w h x y i))
    (hcols : ∀ w h x y cs, (∀ c ∈ cs, P c) → P (LayoutSyn.cols w h x y cs))
    (hrows : ∀ w h x y cs, (∀ c ∈ cs, P c) → P (LayoutSyn.rows w h x y cs)) :
    ∀ n, P n := by
  have key : ∀ k n, sizeOf n ≤ k → P n := by
    intro k
    induction k with
    | zero =>
      intro n hn
      cases n <;> simp at hn
    | succ k ih =>
      intro n hn
      cases n with
      | leaf w h x y i => exact hleaf w h x y i
      | cols w h x y cs =>
        apply hcols
        intro c hc
        apply ih
        have h1 := List.sizeOf_lt_of_mem hc
        simp at hn
        omega
      | rows w h x y cs =>
        apply hrows
        intro c hc
        apply ih
        have h1 := List.sizeOf_lt_of_mem hc
        simp at hn
        omega
  intro n
  exact key (sizeOf n) n (Nat.le_refl _)

/-- The geometry token `WxH,X,Y` of a rendered node. -/
def geomRender (w h x y : Str) : Str := w ++ 'x' :: h ++ ',' :: x ++ ',' :: y

mutual
/-- The native layout string denoted by a syntax node. -/
def render : LayoutSyn → Str
  | .leaf w h x y i => geomRender w h x y ++ ',' :: i
  | .cols w h x y cs => geomRender w h x y ++ '\x7b' :: renderChildren cs ++ ['\x7d']
  | .rows w h x y cs => geomRender w h x y ++ '[' :: renderChildren cs ++ [']']
termination_by structural n => n

/-- Comma-separated renderings of a container's children. -/
def renderChildren : List LayoutSyn → Str
  | [] => []
  | [c] => render c
  | c :: cs => render c ++ ',' :: renderChildren cs
termination_by structural l => l
end

/-- A nonempty all-digit string. -/
def isDigitStr (s : Str) : Bool := !s.isEmpty && s.all Char.isDigit

mutual
/-- Well-formedness of a syntax node: all geometry fields and leaf IDs are
nonempty digit strings, and every container has at least one child. -/
def wfB : LayoutSyn → Bool
  | .leaf w h x y i =>
    isDigitStr w && isDigitStr h && isDigitStr x && isDigitStr y && isDigitStr i
  | .cols w h x y cs =>
    isDigitStr w && isDigitStr h && isDigitStr x && isDigitStr y &&
      !cs.isEmpty && wfChildren cs
  | .rows w h x y cs =>
    isDigitStr w && isDigitStr h && isDigitStr x && isDigitStr y &&
      !cs.isEmpty && wfChildren cs
termination_by structural n => n

/-- Well-formedness of a list of syntax nodes. -/
def wfChildren : List LayoutSyn → Bool
  | [] => true
  | c :: cs => wfB c && wfChildren cs
termination_by structural l => l
end

mutual
/-- Every pane ID value of the syntax node fits in Go's 64-bit int, the
range strconv.Atoi accepts. -/
def idsOK : LayoutSyn → Bool
  | .leaf _ _ _ _ i => decide (digitsVal i ≤ int64Max)
  | .cols _ _ _ _ cs => idsOKChildren cs
  | .rows _ _ _ _ cs => idsOKChildren cs
termination_by structural n => n

/-- Every pane ID value of a list of syntax nodes fits in Go's 64-bit int. -/
def idsOKChildren : List LayoutSyn → Bool
  | [] => true
  | c :: cs => idsOK c && idsOKChildren cs
termination_by structural l => l
end

/-- The name parseTmuxLayout gives a decoded leaf with numeric ID `id`:
the pane map's entry when present, else the synthesized
`unknown-pane-<ID>` placeholder. -/
def lookupNameGo (pm : List (Int × Str)) (id : Int) : Str :=
  match pm.lookup id with
  | some name => name
  | none => str "unknown-pane-" ++ intToStrGo id

/-- The decoded name of a leaf whose ID digit string is `i`. -/
def leafNameOf (paneMap : List (Int × Str)) (i : Str) : Str :=
  lookupNameGo paneMap (digitsVal i)

mutual
/-- The layout tree a well-formed syntax node should decode to: leaves
resolve through the pane map, containers mirror the brace/bracket nesting
with children in order. -/
def mirror (paneMap : List (Int × Str)) : LayoutSyn → LayoutNode
  | .leaf _ _ _ _ i => .mk (leafNameOf paneMap i) [] []
  | .cols _ _ _ _ cs => .mk [] (mirrorChildren paneMap cs) []
  | .rows _ _ _ _ cs => .mk [] [] (mirrorChildren paneMap cs)
termination_by structural n => n

/-- Mirrors of a list of syntax nodes, in order. -/
def mirrorChildren (paneMap : List (Int × Str)) : List LayoutSyn → List LayoutNode
  | [] => []
  | c :: cs => mirror paneMap c :: mirrorChildren paneMap cs
termination_by structural l => l
end

mutual
/-- The depth-first sequence of leaf names of a layout tree. -/
def leafNames : LayoutNode → List Str
  | .mk pn cols rows =>
    if pn ≠ [] then [pn]
    else leafNamesList cols ++ leafNamesList rows
termination_by structural n => n

/-- Concatenated leaf-name sequences of a list of layout trees. -/
def leafNamesList : List LayoutNode → List Str
  | [] => []
  | c :: cs => leafNames c ++ leafNamesList cs
termination_by structural l => l
end

mutual
/-- The left-to-right sequence of pane ID values in a syntax node. -/
def synIDs : LayoutSyn → List Nat
  | .leaf _ _ _ _ i => [digitsVal i]
  | .cols _ _ _ _ cs => synIDsList cs
  | .rows _ _ _ _ cs => synIDsList cs
termination_by structural n => n

/-- Concatenated pane ID sequences of a list of syntax nodes. -/
def synIDsList : List LayoutSyn → List Nat
  | [] => []
  | c :: cs => synIDs c ++ synIDsList cs
termination_by structural l => l
end

mutual
/-- The number of leaf positions applyLayout advances over in a node: a
named leaf or a childless unnamed node is one position; a container sums
over its children (columns when nonempty, else rows). -/
def leafCount : LayoutNode → Nat
  | .mk pn cols rows =>
    if pn ≠ [] then 1
    else if cols.length > 0 then leafCountList cols
    else if rows.length > 0 then leafCountList rows
    else 1
termination_by structural n => n

/-- Total leaf positions of a list of nodes. -/
def leafCountList : List LayoutNode → Nat
  | [] => 0
  | c :: cs => leafCount c + leafCountList cs
termination_by structural l => l
end

/-- The window used by claim C2's scenario: a three-leaf columns layout
over panes `a`, `b`, `c`, each with one setup command. -/
def c2Window : WindowConfig :=
  { name := str "main"
    workingDirectory := []
    panes := [⟨str "a", [], str "cmdA", []⟩, ⟨str "b", [], str "cmdB", []⟩,
              ⟨str "c", [], str "cmdC", []⟩]
    layout := .mk [] [.mk (str "a") [] [], .mk (str "b") [] [], .mk (str "c") [] []] [] }

/-- C2: compiling the three-leaf columns layout `[a,b,c]` from pane index 0
emits exactly two split operations, targeting panes `.0` and then `.1`,
both before any leaf send-keys command, and returns next pane index 3. -/
theorem claim_C2 :
    applyLayout (str "/home/u") (str "demo:main") 0 c2Window.layout c2Window [] =
      ([[str "split-window", str "-h", str "-p", str "66", str "-t", str "demo:main.0"],
        [str "split-window", str "-h", str "-p", str "50", str "-t", str "demo:main.1"],
        [str "send-keys", str "-t", str "demo:main.0", str "cmdA", str "C-m"],
        [str "send-keys", str "-t", str "demo:main.1", str "cmdB", str "C-m"],
        [str "send-keys", str "-t", str "demo:main.2", str "cmdC", str "C-m"]], 3) := by
  decide

/-- The stored pane of claim C5's scenario, named `win-pane-2`. -/
def c5Pane : PaneConfig := ⟨str "win-pane-2", [], [], []⟩

/-- The window holding claim C5's stored pane. -/
def c5Window : WindowConfig :=
  { name := str "win", workingDirectory := [], panes := [c5Pane], layout := default }

/-- C5: against a window storing a pane named `win-pane-2`, the query
`anything-win-pane-2` resolves to that pane; the stored name's trailing
suffix token is `-pane-2`; `win-pane-20` does not end with that token and
does not resolve; `other-pane-2` does end with exactly that token and
accordingly resolves. -/
theorem claim_C5 :
    findPane c5Window (str "anything-win-pane-2") = some c5Pane ∧
    paneMatchSuffix (str "win-pane-2") = str "-pane-2" ∧
    ((str "-pane-2").isSuffixOf (str "win-pane-20") = false ∧
      findPane c5Window (str "win-pane-20") = none) ∧
    ((str "-pane-2").isSuffixOf (str "other-pane-2") = true ∧
      findPane c5Window (str "other-pane-2") = some c5Pane) := by
  decide

/-- C10: when a stored pane's name has no `-pane-` token, its whole name is
the suffix used for matching; a query ending with the stored name resolves,
and when that pane heads the window's pane list findPane returns it. -/
theorem claim_C10 (p : PaneConfig) (rest : List PaneConfig) (w : WindowConfig) (q : Str)
    (hw : w.panes = p :: rest) (hnp : lastIndexGo p.name (str "-pane-") = none)
    (hq : p.name.isSuffixOf q = true) :
    paneMatches q p = true ∧ findPane w q = some p := by
  have hsuf : paneMatchSuffix p.name = p.name := by
    unfold paneMatchSuffix
    rw [hnp]
  have hm : paneMatches q p = true := by
    unfold paneMatches
    rw [hsuf, hq]
    simp
  refine ⟨hm, ?_⟩
  unfold findPane
  rw [hw, List.find?_cons_of_pos _ hm]

/-- The window of claim C10's example: a single stored pane `editor`. -/
def c10Window : WindowConfig :=
  { name := str "dev", workingDirectory := [], panes := [⟨str "editor", [], [], []⟩],
    layout := default }

theorem claim_C10_witness :
    paneMatches (str "my-editor") ⟨str "editor", [], [], []⟩ = true ∧
    findPane c10Window (str "my-editor") = some ⟨str "editor", [], [], []⟩ :=
  claim_C10 ⟨str "editor", [], [], []⟩ [] c10Window (str "my-editor")
    (by decide) (by decide) (by decide)

/-- On a returned decode error the capture continues with the flat
single-level columns fallback; only a parse panic aborts it. -/
theorem captureWindowLayout_error (paneMap : List (Int × Str)) (layoutStr : Str)
    (panes : List PaneConfig) (e : Str)
    (herr : parseTmuxLayout paneMap layoutStr = .error e) :
    captureWindowLayout paneMap layoutStr panes =
      some (.mk [] (panes.map fun p => .mk p.name [] []) []) := by
  unfold captureWindowLayout
  rw [herr]

/-- Tests whether a tmux invocation is one of the configuration commands:
new-session, new-window, split-window, send-keys, or kill-session. -/
def isConfigCmd (cmd : Cmd) : Bool :=
  cmd.head? == some (str "new-session") || cmd.head? == some (str "new-window") ||
  cmd.head? == some (str "split-window") || cmd.head? == some (str "send-keys") ||
  cmd.head? == some (str "kill-session")

/-- C7: when the session-existence probe succeeds, recreate is off and
dry-run is off, the driver issues no configuration command at all; every
command it runs is the probe itself or the final switch-client or
attach-session transition. -/
theorem claim_C7 (home : Str) (config : Config)
    (probeOk recreate dryRun detached inTMUX : Bool)
    (hp : probeOk = true) (hr : recreate = false) (hd : dryRun = false) :
    (∀ cmd ∈ driverCommands home config probeOk recreate dryRun detached inTMUX,
      isConfigCmd cmd = false) ∧
    (∀ cmd ∈ driverCommands home config probeOk recreate dryRun detached inTMUX,
      cmd.head? = some (str "has-session") ∨ cmd.head? = some (str "switch-client") ∨
      cmd.head? = some (str "attach-session")) := by
  subst hp hr hd
  constructor <;>
  · intro cmd hcmd
    cases detached <;> cases inTMUX <;>
      simp [driverCommands, isConfigCmd] at hcmd ⊢ <;>
      (try rcases hcmd with rfl | rfl) <;>
      (try subst hcmd) <;>
      simp only [List.head?_cons] <;>
      decide

/-- The config of claim C7's witness scenario. -/
def c7Config : Config := ⟨⟨str "sess", [], []⟩⟩

theorem claim_C7_witness :
    (driverCommands (str "/h") c7Config true false false false true).all
      (fun c => !isConfigCmd c) = true := by
  rw [List.all_eq_true]
  intro c hc
  have h := (claim_C7 (str "/h") c7Config true false false false true rfl rfl rfl).1 c hc
  simp [h]

theorem applyLayoutList_snd (home wt : Str) (window : WindowConfig) (swd : Str)
    (nodes : List LayoutNode)
    (hIH : ∀ n ∈ nodes, ∀ pt, (applyLayout home wt pt n window swd).2 = pt + leafCount n) :
    ∀ pt, (applyLayoutList home wt pt nodes window swd).2 = pt + leafCountList nodes := by
  induction nodes with
  | nil => intro pt; simp [applyLayoutList, leafCountList]
  | cons c cs ih =>
    intro pt
    simp only [applyLayoutList, leafCountList]
    rw [hIH c (by simp), ih (fun n hn => hIH n (by simp [hn]))]
    omega

/-- C8: for every layout tree, window and start index, applyLayout returns
the start index plus the tree's number of leaf positions (a node with an
empty pane name and no children counting as one position), regardless of
pane resolution or commands. -/
theorem claim_C8 (home wt : Str) (node : LayoutNode) (window : WindowConfig) (swd : Str)
    (pt : Nat) :
    (applyLayout home wt pt node window swd).2 = pt + leafCount node := by
  induction node using layoutNode_strong_ind generalizing pt with
  | _ pn cols rows ihc ihr =>
    by_cases hpn : pn ≠ []
    · simp [applyLayout, hpn, leafCount]
    · push_neg at hpn
      subst hpn
      cases cols with
      | nil =>
        cases rows with
        | nil => simp [applyLayout, leafCount]
        | cons r rs =>
          simp only [applyLayout, leafCount]
          simp only [ne_eq, not_true_eq_false, if_false, List.length_nil,
            Nat.lt_irrefl, List.length_cons]
          rw [applyLayoutList_snd home wt window swd (r :: rs) (fun n hn pt => ihr n hn pt) pt]
          simp
      | cons c cs =>
        simp only [applyLayout, leafCount]
        simp only [ne_eq, not_true_eq_false, if_false, List.length_cons]
        rw [applyLayoutList_snd home wt window swd (c :: cs) (fun n hn pt => ihc n hn pt) pt]
        simp

theorem splitCmdFor_fields (home dirFlag wt : Str) (pt : Nat) (children : List LayoutNode)
    (window : WindowConfig) (swd : Str) (i : Nat) :
    (splitCmdFor home dirFlag wt pt children window swd i).getD 0 [] = str "split-window" ∧
    (splitCmdFor home dirFlag wt pt children window swd i).getD 3 [] =
      natToStr (100 * (children.length - 1 - i) / (children.length - i)) ∧
    (splitCmdFor home dirFlag wt pt children window swd i).getD 5 [] =
      paneTargetStr wt (pt + i) := by
  simp only [splitCmdFor]
  split <;> simp [List.getD]

/-- The direction flag and child list of a container node, as the branch
structure of applyLayout selects them: columns win over rows, a named node
or an empty one is no container. -/
def containerChildren (node : LayoutNode) : Option (Str × List LayoutNode) :=
  match node with
  | .mk pn cols rows =>
    if pn ≠ [] then none
    else if cols.length > 0 then some (str "-h", cols)
    else if rows.length > 0 then some (str "-v", rows)
    else none

/-- C3: for every container node with n >= 2 children, the first n-1
emitted commands are split operations whose requested percentages, in
emission order, are exactly `100*(n-1-i)/(n-i)` for i = 0..n-2 under
truncating division. -/
theorem claim_C3 (home wt : Str) (pt : Nat) (node : LayoutNode) (window : WindowConfig)
    (swd : Str) (dirFlag : Str) (children : List LayoutNode)
    (hc : containerChildren node = some (dirFlag, children)) (hn : 2 ≤ children.length) :
    ((applyLayout home wt pt node window swd).1.take (children.length - 1)).map
        (fun c => c.getD 3 []) =
      (List.range (children.length - 1)).map
        (fun i => natToStr (100 * (children.length - 1 - i) / (children.length - i))) ∧
    ∀ c ∈ (applyLayout home wt pt node window swd).1.take (children.length - 1),
      c.getD 0 [] = str "split-window" := by
  obtain ⟨pn, cols, rows⟩ := node
  simp only [containerChildren] at hc
  by_cases hpn : pn ≠ []
  · rw [if_pos hpn] at hc; cases hc
  · rw [if_neg hpn] at hc
    push_neg at hpn
    subst hpn
    by_cases hcols : cols.length > 0
    · rw [if_pos hcols] at hc
      injection hc with hc
      rw [Prod.mk.injEq] at hc
      obtain ⟨rfl, rfl⟩ := hc
      simp only [applyLayout, ne_eq, not_true_eq_false, if_false, if_pos hcols]
      have hlen : ((List.range (cols.length - 1)).map
          (splitCmdFor home (str "-h") wt pt cols window swd)).length =
          cols.length - 1 := by simp
      rw [List.take_left' hlen, List.map_map]
      constructor
      · apply List.map_congr_left
        intro i hi
        exact (splitCmdFor_fields home (str "-h") wt pt cols window swd i).2.1
      · intro c hcmem
        rw [List.mem_map] at hcmem
        obtain ⟨i, hi, rfl⟩ := hcmem
        exact (splitCmdFor_fields home (str "-h") wt pt cols window swd i).1
    · rw [if_neg hcols] at hc
      by_cases hrows : rows.length > 0
      · rw [if_pos hrows] at hc
        injection hc with hc
        rw [Prod.mk.injEq] at hc
        obtain ⟨rfl, rfl⟩ := hc
        simp only [applyLayout, ne_eq, not_true_eq_false, if_false, if_neg hcols, if_pos hrows]
        have hlen : ((List.range (rows.length - 1)).map
            (splitCmdFor home (str "-v") wt pt rows window swd)).length =
            rows.length - 1 := by simp
        rw [List.take_left' hlen, List.map_map]
        constructor
        · apply List.map_congr_left
          intro i hi
          exact (splitCmdFor_fields home (str "-v") wt pt rows window swd i).2.1
        · intro c hcmem
          rw [List.mem_map] at hcmem
          obtain ⟨i, hi, rfl⟩ := hcmem
          exact (splitCmdFor_fields home (str "-v") wt pt rows window swd i).1
      · rw [if_neg hrows] at hc; cases hc

/-- The four leaves of claim C3's witness container. -/
def c3Kids : List LayoutNode :=
  [.mk (str "a") [] [], .mk (str "b") [] [], .mk (str "c") [] [], .mk (str "d") [] []]

/-- Claim C3's witness container: a columns node with four children. -/
def c3Node : LayoutNode := .mk [] c3Kids []

theorem claim_C3_witness :
    containerChildren c3Node = some (str "-h", c3Kids) ∧ 2 ≤ c3Kids.length ∧
    ((applyLayout (str "/h") (str "s:w") 0 c3Node c2Window []).1.take
        (c3Kids.length - 1)).map (fun c => c.getD 3 []) =
      [str "75", str "66", str "50"] := by
  refine ⟨rfl, by decide, ?_⟩
  rw [(claim_C3 (str "/h") (str "s:w") 0 c3Node c2Window [] (str "-h") c3Kids
    rfl (by decide)).1]
  decide

theorem getWorkDirForNode_unfold (home : Str) (pn : Str) (cols rows : List LayoutNode)
    (window : WindowConfig) (swd : Str) :
    getWorkDirForNode home (.mk pn cols rows) window swd =
      if pn ≠ [] then
        match findPane window pn with
        | some p =>
          if p.workingDirectory ≠ [] then expandPath home p.workingDirectory
          else if window.workingDirectory ≠ [] then expandPath home window.workingDirectory
          else expandPath home swd
        | none =>
          if window.workingDirectory ≠ [] then expandPath home window.workingDirectory
          else expandPath home swd
      else
        match cols with
        | c :: _ => getWorkDirForNode home c window swd
        | [] =>
          match rows with
          | r :: _ => getWorkDirForNode home r window swd
          | [] => expandPath home swd := by
  cases cols <;> cases rows <;> rfl

/-- C4: the effective working directory of a leaf is the pane's directory
when set, else the window's when set, else the session's, all three
home-expanded; a container takes its first child's directory recursively;
expansion sends `~` to home, `~/rest` to home joined with rest, and leaves
every other path unchanged. -/
theorem claim_C4 (home swd : Str) (window : WindowConfig) :
    (∀ pn p cols rows, pn ≠ [] → findPane window pn = some p → p.workingDirectory ≠ [] →
      getWorkDirForNode home (.mk pn cols rows) window swd =
        expandPath home p.workingDirectory) ∧
    (∀ pn p cols rows, pn ≠ [] → findPane window pn = some p → p.workingDirectory = [] →
      window.workingDirectory ≠ [] →
      getWorkDirForNode home (.mk pn cols rows) window swd =
        expandPath home window.workingDirectory) ∧
    (∀ pn cols rows, pn ≠ [] → findPane window pn = none → window.workingDirectory ≠ [] →
      getWorkDirForNode home (.mk pn cols rows) window swd =
        expandPath home window.workingDirectory) ∧
    (∀ pn p cols rows, pn ≠ [] → findPane window pn = some p → p.workingDirectory = [] →
      window.workingDirectory = [] →
      getWorkDirForNode home (.mk pn cols rows) window swd = expandPath home swd) ∧
    (∀ pn cols rows, pn ≠ [] → findPane window pn = none → window.workingDirectory = [] →
      getWorkDirForNode home (.mk pn cols rows) window swd = expandPath home swd) ∧
    (∀ c cs rows, getWorkDirForNode home (.mk [] (c :: cs) rows) window swd =
      getWorkDirForNode home c window swd) ∧
    (∀ r rs, getWorkDirForNode home (.mk [] [] (r :: rs)) window swd =
      getWorkDirForNode home r window swd) ∧
    expandPath home (str "~") = home ∧
    (∀ rest, expandPath home ('~' :: '/' :: rest) = filepathJoin home rest) ∧
    (∀ path, (str "~/").isPrefixOf path = false → path ≠ str "~" →
      expandPath home path = path) := by
  refine ⟨?_, ?_, ?_, ?_, ?_, ?_, ?_, ?_, ?_, ?_⟩
  · intro pn p cols rows hpn hfp hwd
    rw [getWorkDirForNode_unfold, if_pos hpn]
    simp [hfp, hwd]
  · intro pn p cols rows hpn hfp hwd hww
    rw [getWorkDirForNode_unfold, if_pos hpn]
    simp [hfp, hwd, hww]
  · intro pn cols rows hpn hfp hww
    rw [getWorkDirForNode_unfold, if_pos hpn]
    simp [hfp, hww]
  · intro pn p cols rows hpn hfp hwd hww
    rw [getWorkDirForNode_unfold, if_pos hpn]
    simp [hfp, hwd, hww]
  · intro pn cols rows hpn hfp hww
    rw [getWorkDirForNode_unfold, if_pos hpn]
    simp [hfp, hww]
  · intro c cs rows
    rw [getWorkDirForNode_unfold, if_neg (by simp)]
  · intro r rs
    rw [getWorkDirForNode_unfold, if_neg (by simp)]
  · rfl
  · intro rest
    unfold expandPath
    rw [if_pos, if_neg]
    · rfl
    · simp [str]
    · simp [str, List.isPrefixOf]
  · intro path hp1 hp2
    unfold expandPath
    rw [if_neg]
    simp [hp1, hp2]

/-- The pane of claim C4's witness, with a `~`-relative directory. -/
def c4Pane : PaneConfig := ⟨str "p", str "~/proj", [], []⟩

/-- The window of claim C4's witness. -/
def c4Window : WindowConfig :=
  { name := str "w", workingDirectory := str "/wd", panes := [c4Pane], layout := default }

theorem claim_C4_witness :
    getWorkDirForNode (str "/home/u") (.mk (str "p") [] []) c4Window (str "/sess") =
      expandPath (str "/home/u") (str "~/proj") ∧
    expandPath (str "/home/u") (str "~/proj") = str "/home/u/proj" ∧
    getWorkDirForNode (str "/home/u") (.mk [] [.mk (str "p") [] []] []) c4Window
        (str "/sess") =
      getWorkDirForNode (str "/home/u") (.mk (str "p") [] []) c4Window (str "/sess") := by
  refine ⟨?_, by decide, ?_⟩
  · exact (claim_C4 (str "/home/u") (str "/sess") c4Window).1 (str "p") c4Pane [] []
      (by decide) (by decide) (by decide)
  · exact (claim_C4 (str "/home/u") (str "/sess") c4Window).2.2.2.2.2.1
      (.mk (str "p") [] []) [] []

/-- The first character of `t`, if any, is not a decimal digit. -/
def headNotDigitB (t : Str) : Bool :=
  match t with
  | [] => true
  | ch :: _ => !ch.isDigit

theorem digitRunLen_append {ds t : Str} (hds : ds.all Char.isDigit = true)
    (ht : headNotDigitB t = true) : digitRunLen (ds ++ t) = ds.length := by
  induction ds with
  | nil =>
    cases t with
    | nil => simp [digitRunLen]
    | cons ch rest =>
      simp only [headNotDigitB, Bool.not_eq_true'] at ht
      simp [digitRunLen, List.takeWhile_cons, ht]
  | cons d ds ih =>
    simp only [List.all_cons, Bool.and_eq_true] at hds
    have h2 := ih hds.2
    simp [digitRunLen, List.takeWhile_cons, hds.1] at h2 ⊢
    omega

theorem matchGeomLen_none {s : Str} (hs : headNotDigitB s = true) :
    matchGeomLen s = none := by
  have h0 : digitRunLen s = 0 := by
    cases s with
    | nil => simp [digitRunLen]
    | cons ch rest =>
      simp only [headNotDigitB, Bool.not_eq_true'] at hs
      simp [digitRunLen, List.takeWhile_cons, hs]
  unfold matchGeomLen
  rw [h0]
  rfl

theorem getD_append_self (u v : Str) (d : Char) : (u ++ v).getD u.length d = v.headD d := by
  induction u with
  | nil => cases v <;> simp [List.getD]
  | cons a u ih => simpa using ih

/-- One depth-counter step of the bracket scan: open increments, close
decrements, anything else is neutral. -/
def stepD (o c : Char) (d : Nat) (ch : Char) : Nat :=
  if ch == o then d + 1 else if ch == c then d - 1 else d

theorem scanBal_cons (o c : Char) (d : Nat) (ch : Char) (rest : Str) :
    scanBal o c d (ch :: rest) =
      if d == 0 then 0 else 1 + scanBal o c (stepD o c d ch) rest := rfl

theorem scanBal_zero (o c : Char) (v : Str) : scanBal o c 0 v = 0 := by
  cases v <;> simp [scanBal]

/-- The depth counter stays at least 1 before every character of `u` and
after all of `u`, scanning from depth `d`. -/
def minDepthOK (o c : Char) (d : Nat) : Str → Bool
  | [] => decide (1 ≤ d)
  | ch :: rest => decide (1 ≤ d) && minDepthOK o c (stepD o c d ch) rest

theorem scanBal_run (o c : Char) {u : Str} (v : Str) {d : Nat}
    (hmin : minDepthOK o c d u = true) :
    scanBal o c d (u ++ v) = u.length + scanBal o c (u.foldl (stepD o c) d) v := by
  induction u generalizing d with
  | nil => simp
  | cons ch rest ih =>
    simp only [minDepthOK, Bool.and_eq_true, decide_eq_true_eq] at hmin
    have hd : (d == 0) = false := by
      have := hmin.1
      simp only [beq_eq_false_iff_ne, ne_eq]
      omega
    simp only [List.cons_append, scanBal_cons, hd, Bool.false_eq_true, if_false,
      List.foldl_cons, List.length_cons]
    rw [ih hmin.2]
    omega

theorem scanBal_exact (o c : Char) (hoc : o ≠ c) {u : Str} (v : Str)
    (hmin : minDepthOK o c 1 u = true) (hfold : u.foldl (stepD o c) 1 = 1) :
    scanBal o c 1 (u ++ c :: v) = u.length + 1 := by
  rw [scanBal_run o c (c :: v) hmin, hfold, scanBal_cons]
  have h2 : (c == o) = false := by
    simp only [beq_eq_false_iff_ne, ne_eq]
    exact fun h => hoc h.symm
  simp [stepD, h2, scanBal_zero]

theorem foldl_stepD_neutral (o c : Char) {u : Str}
    (hu : ∀ ch ∈ u, (ch == o) = false ∧ (ch == c) = false) (d : Nat) :
    u.foldl (stepD o c) d = d := by
  induction u generalizing d with
  | nil => rfl
  | cons ch rest ih =>
    have h := hu ch (by simp)
    simp only [List.foldl_cons, stepD, h.1, h.2, Bool.false_eq_true, if_false]
    exact ih (fun x hx => hu x (by simp [hx])) d

theorem minDepthOK_neutral (o c : Char) {u : Str}
    (hu : ∀ ch ∈ u, (ch == o) = false ∧ (ch == c) = false) {d : Nat} (hd : 1 ≤ d) :
    minDepthOK o c d u = true := by
  induction u generalizing d with
  | nil => simpa [minDepthOK]
  | cons ch rest ih =>
    have h := hu ch (by simp)
    simp only [minDepthOK, Bool.and_eq_true, decide_eq_true_eq]
    refine ⟨hd, ?_⟩
    simp only [stepD, h.1, h.2, Bool.false_eq_true, if_false]
    exact ih (fun x hx => hu x (by simp [hx])) hd

theorem minDepthOK_append (o c : Char) {u v : Str} {d : Nat}
    (hu : minDepthOK o c d u = true)
    (hv : minDepthOK o c (u.foldl (stepD o c) d) v = true) :
    minDepthOK o c d (u ++ v) = true := by
  induction u generalizing d with
  | nil => simpa using hv
  | cons ch rest ih =>
    simp only [minDepthOK, Bool.and_eq_true, decide_eq_true_eq] at hu ⊢
    simp only [List.foldl_cons] at hv
    exact ⟨hu.1, ih hu.2 hv⟩

theorem foldl_stepD_append (o c : Char) (u v : Str) (d : Nat) :
    (u ++ v).foldl (stepD o c) d = v.foldl (stepD o c) (u.foldl (stepD o c) d) := by
  rw [List.foldl_append]

/-- The bracket pairs tracked by the scanner. -/
def bracketPair (o c : Char) : Prop :=
  (o = '\x7b' ∧ c = '\x7d') ∨ (o = '[' ∧ c = ']')

theorem geom_chars_neutral {o c : Char} (hoc : bracketPair o c) {w h x y : Str}
    (hw : w.all Char.isDigit = true) (hh : h.all Char.isDigit = true)
    (hx : x.all Char.isDigit = true) (hy : y.all Char.isDigit = true) :
    ∀ ch ∈ geomRender w h x y, (ch == o) = false ∧ (ch == c) = false := by
  intro ch hch
  have hw' := List.all_eq_true.mp hw
  have hh' := List.all_eq_true.mp hh
  have hx' := List.all_eq_true.mp hx
  have hy' := List.all_eq_true.mp hy
  have hdig : ch.isDigit = true ∨ ch = 'x' ∨ ch = ',' := by
    simp only [geomRender, List.mem_append, List.mem_cons] at hch
    rcases hch with ((hm | rfl | hm) | rfl | hm) | rfl | hm
    · exact Or.inl (by simpa using hw' ch hm)
    · exact Or.inr (Or.inl rfl)
    · exact Or.inl (by simpa using hh' ch hm)
    · exact Or.inr (Or.inr rfl)
    · exact Or.inl (by simpa using hx' ch hm)
    · exact Or.inr (Or.inr rfl)
    · exact Or.inl (by simpa using hy' ch hm)
  rcases hoc with ⟨rfl, rfl⟩ | ⟨rfl, rfl⟩
  all_goals
    rcases hdig with hd | rfl | rfl
    · refine ⟨?_, ?_⟩ <;>
      · simp only [beq_eq_false_iff_ne, ne_eq]
        intro heq
        subst heq
        exact absurd hd (by decide)
    · exact ⟨by decide, by decide⟩
    · exact ⟨by decide, by decide⟩

theorem bracketPair_ne {o c : Char} (hoc : bracketPair o c) : o ≠ c := by
  rcases hoc with ⟨rfl, rfl⟩ | ⟨rfl, rfl⟩ <;> decide

theorem neutral_char {o c : Char} (hoc : bracketPair o c) {ch : Char}
    (hd : ch.isDigit = true ∨ ch = 'x' ∨ ch = ',') :
    (ch == o) = false ∧ (ch == c) = false := by
  rcases hoc with ⟨rfl, rfl⟩ | ⟨rfl, rfl⟩
  all_goals
    rcases hd with hd | rfl | rfl
    · refine ⟨?_, ?_⟩ <;>
      · simp only [beq_eq_false_iff_ne, ne_eq]
        intro heq
        subst heq
        exact absurd hd (by decide)
    · exact ⟨by decide, by decide⟩
    · exact ⟨by decide, by decide⟩

theorem container_depth (o c op cl : Char) (hoc : bracketPair o c)
    (hcase : (op = o ∧ cl = c) ∨
      ((op == o) = false ∧ (op == c) = false ∧ (cl == o) = false ∧ (cl == c) = false))
    {w h x y : Str}
    (hw : w.all Char.isDigit = true) (hh : h.all Char.isDigit = true)
    (hx : x.all Char.isDigit = true) (hy : y.all Char.isDigit = true)
    (inner : Str)
    (hinner : ∀ d, 1 ≤ d →
      minDepthOK o c d inner = true ∧ inner.foldl (stepD o c) d = d) :
    ∀ d, 1 ≤ d →
      minDepthOK o c d (geomRender w h x y ++ op :: (inner ++ [cl])) = true ∧
      (geomRender w h x y ++ op :: (inner ++ [cl])).foldl (stepD o c) d = d := by
  intro d hd
  have hg := geom_chars_neutral hoc hw hh hx hy
  have hgm : minDepthOK o c d (geomRender w h x y) = true := minDepthOK_neutral _ _ hg hd
  have hgf : (geomRender w h x y).foldl (stepD o c) d = d := foldl_stepD_neutral _ _ hg d
  have hco : (c == o) = false := by
    simp only [beq_eq_false_iff_ne, ne_eq]
    exact fun heq => bracketPair_ne hoc heq.symm
  rcases hcase with ⟨rfl, rfl⟩ | ⟨h1, h2, h3, h4⟩
  · constructor
    · apply minDepthOK_append _ _ hgm
      rw [hgf]
      simp only [minDepthOK, Bool.and_eq_true, decide_eq_true_eq]
      refine ⟨hd, ?_⟩
      have hop : stepD op cl d op = d + 1 := by simp [stepD]
      rw [hop]
      apply minDepthOK_append _ _ ((hinner (d + 1) (by omega)).1)
      rw [(hinner (d + 1) (by omega)).2]
      simp only [minDepthOK, Bool.and_eq_true, decide_eq_true_eq]
      refine ⟨by omega, ?_⟩
      have hstep2 : stepD op cl (d + 1) cl = d := by simp [stepD, hco]
      rw [hstep2]
      simpa using hd
    · rw [foldl_stepD_append, hgf]
      simp only [List.foldl_cons]
      have hop : stepD op cl d op = d + 1 := by simp [stepD]
      rw [hop, foldl_stepD_append, (hinner (d + 1) (by omega)).2]
      simp [stepD, hco]
  · have hop2 : stepD o c d op = d := by simp [stepD, h1, h2]
    have hcl2 : stepD o c d cl = d := by simp [stepD, h3, h4]
    constructor
    · apply minDepthOK_append _ _ hgm
      rw [hgf]
      simp only [minDepthOK, Bool.and_eq_true, decide_eq_true_eq]
      refine ⟨hd, ?_⟩
      rw [hop2]
      apply minDepthOK_append _ _ ((hinner d hd).1)
      rw [(hinner d hd).2]
      simp only [minDepthOK, Bool.and_eq_true, decide_eq_true_eq]
      refine ⟨hd, ?_⟩
      rw [hcl2]
      simpa using hd
    · rw [foldl_stepD_append, hgf]
      simp only [List.foldl_cons]
      rw [hop2, foldl_stepD_append, (hinner d hd).2]
      simp [hcl2]

theorem renderChildren_one (a : LayoutSyn) : renderChildren [a] = render a := rfl

theorem renderChildren_cons2 (a b : LayoutSyn) (t : List LayoutSyn) :
    renderChildren (a :: b :: t) = render a ++ ',' :: renderChildren (b :: t) := rfl

theorem isDigitStr_all {s : Str} (h : isDigitStr s = true) : s.all Char.isDigit = true := by
  simp only [isDigitStr, Bool.and_eq_true] at h
  exact h.2

theorem isDigitStr_ne {s : Str} (h : isDigitStr s = true) : s ≠ [] := by
  simp only [isDigitStr, Bool.and_eq_true, Bool.not_eq_true', List.isEmpty_eq_false] at h
  exact h.1

theorem wfB_leaf {w h x y i : Str} (hwf : wfB (.leaf w h x y i) = true) :
    isDigitStr w = true ∧ isDigitStr h = true ∧ isDigitStr x = true ∧
    isDigitStr y = true ∧ isDigitStr i = true := by
  simp only [wfB, Bool.and_eq_true] at hwf
  tauto

theorem wfB_cols {w h x y : Str} {cs : List LayoutSyn}
    (hwf : wfB (.cols w h x y cs) = true) :
    isDigitStr w = true ∧ isDigitStr h = true ∧ isDigitStr x = true ∧
    isDigitStr y = true ∧ cs ≠ [] ∧ wfChildren cs = true := by
  simp only [wfB, Bool.and_eq_true, Bool.not_eq_true', List.isEmpty_eq_false] at hwf
  tauto

theorem wfB_rows {w h x y : Str} {cs : List LayoutSyn}
    (hwf : wfB (.rows w h x y cs) = true) :
    isDigitStr w = true ∧ isDigitStr h = true ∧ isDigitStr x = true ∧
    isDigitStr y = true ∧ cs ≠ [] ∧ wfChildren cs = true := by
  simp only [wfB, Bool.and_eq_true, Bool.not_eq_true', List.isEmpty_eq_false] at hwf
  tauto

theorem wfChildren_mem {cs : List LayoutSyn} (hwf : wfChildren cs = true) :
    ∀ s ∈ cs, wfB s = true := by
  induction cs with
  | nil => intro s hs; cases hs
  | cons a t ih =>
    simp only [wfChildren, Bool.and_eq_true] at hwf
    intro s hs
    rcases List.mem_cons.mp hs with rfl | hs
    · exact hwf.1
    · exact ih hwf.2 s hs

theorem renderChildren_depth_of (o c : Char) (hoc : bracketPair o c)
    (cs : List LayoutSyn)
    (hmem : ∀ s ∈ cs, wfB s = true → ∀ d, 1 ≤ d →
      minDepthOK o c d (render s) = true ∧ (render s).foldl (stepD o c) d = d)
    (hwf : wfChildren cs = true) :
    ∀ d, 1 ≤ d → minDepthOK o c d (renderChildren cs) = true ∧
      (renderChildren cs).foldl (stepD o c) d = d := by
  induction cs with
  | nil =>
    intro d hd
    constructor
    · simpa [renderChildren, minDepthOK] using hd
    · rfl
  | cons s rest ih =>
    intro d hd
    simp only [wfChildren, Bool.and_eq_true] at hwf
    have hs := hmem s (by simp) hwf.1 d hd
    cases rest with
    | nil => simpa [renderChildren_one] using hs
    | cons s2 rest2 =>
      have hr := ih (fun x hx => hmem x (by simp [hx])) hwf.2 d hd
      have hcomma : stepD o c d ',' = d := by
        have : ((',' : Char) == o) = false ∧ ((',' : Char) == c) = false :=
          neutral_char hoc (Or.inr (Or.inr rfl))
        simp [stepD, this.1, this.2]
      rw [renderChildren_cons2]
      constructor
      · apply minDepthOK_append _ _ hs.1
        rw [hs.2]
        simp only [minDepthOK, Bool.and_eq_true, decide_eq_true_eq]
        refine ⟨hd, ?_⟩
        rw [hcomma]
        exact hr.1
      · rw [foldl_stepD_append, hs.2]
        simp only [List.foldl_cons]
        rw [hcomma]
        exact hr.2

theorem render_depth (o c : Char) (hoc : bracketPair o c) :
    ∀ syn, wfB syn = true → ∀ d, 1 ≤ d →
      minDepthOK o c d (render syn) = true ∧ (render syn).foldl (stepD o c) d = d := by
  intro syn
  induction syn using layoutSyn_strong_ind with
  | hleaf w h x y i =>
    intro hwf d hd
    obtain ⟨hw, hh, hx, hy, hi⟩ := wfB_leaf hwf
    have hneu : ∀ ch ∈ render (.leaf w h x y i), (ch == o) = false ∧ (ch == c) = false := by
      intro ch hch
      simp only [render, List.mem_append, List.mem_cons] at hch
      rcases hch with hg | rfl | hm
      · exact geom_chars_neutral hoc (isDigitStr_all hw) (isDigitStr_all hh)
          (isDigitStr_all hx) (isDigitStr_all hy) ch hg
      · exact neutral_char hoc (Or.inr (Or.inr rfl))
      · exact neutral_char hoc
          (Or.inl (by simpa using List.all_eq_true.mp (isDigitStr_all hi) ch hm))
    exact ⟨minDepthOK_neutral _ _ hneu hd, foldl_stepD_neutral _ _ hneu d⟩
  | hcols w h x y cs ih =>
    intro hwf d hd
    obtain ⟨hw, hh, hx, hy, hne, hcs⟩ := wfB_cols hwf
    have hshape : render (.cols w h x y cs) =
        geomRender w h x y ++ '\x7b' :: (renderChildren cs ++ ['\x7d']) := by
      simp [render]
    rw [hshape]
    exact container_depth o c '\x7b' '\x7d' hoc
      (by
        rcases hoc with ⟨rfl, rfl⟩ | ⟨rfl, rfl⟩
        · exact Or.inl ⟨rfl, rfl⟩
        · exact Or.inr ⟨by decide, by decide, by decide, by decide⟩)
      (isDigitStr_all hw) (isDigitStr_all hh) (isDigitStr_all hx) (isDigitStr_all hy)
      (renderChildren cs)
      (renderChildren_depth_of o c hoc cs (fun s hs => ih s hs) hcs) d hd
  | hrows w h x y cs ih =>
    intro hwf d hd
    obtain ⟨hw, hh, hx, hy, hne, hcs⟩ := wfB_rows hwf
    have hshape : render (.rows w h x y cs) =
        geomRender w h x y ++ '[' :: (renderChildren cs ++ [']']) := by
      simp [render]
    rw [hshape]
    exact container_depth o c '[' ']' hoc
      (by
        rcases hoc with ⟨rfl, rfl⟩ | ⟨rfl, rfl⟩
        · exact Or.inr ⟨by decide, by decide, by decide, by decide⟩
        · exact Or.inl ⟨rfl, rfl⟩)
      (isDigitStr_all hw) (isDigitStr_all hh) (isDigitStr_all hx) (isDigitStr_all hy)
      (renderChildren cs)
      (renderChildren_depth_of o c hoc cs (fun s hs => ih s hs) hcs) d hd

theorem headNotDigit_cons {ch : Char} (t : Str) (h : ch.isDigit = false) :
    headNotDigitB (ch :: t) = true := by
  simp [headNotDigitB, h]

theorem length_ne_zero_of_ne_nil {s : Str} (h : s ≠ []) : (s.length == 0) = false := by
  simp only [beq_eq_false_iff_ne, ne_eq, List.length_eq_zero]
  exact h

theorem matchGeomLen_geom {w h x y : Str} (hw : isDigitStr w = true)
    (hh : isDigitStr h = true) (hx : isDigitStr x = true) (hy : isDigitStr y = true)
    (t : Str) (ht : headNotDigitB t = true) :
    matchGeomLen (geomRender w h x y ++ t) = some (geomRender w h x y).length := by
  have hs : geomRender w h x y ++ t =
      w ++ 'x' :: (h ++ ',' :: (x ++ ',' :: (y ++ t))) := by
    simp [geomRender]
  have hlen : (geomRender w h x y).length = w.length + 1 + h.length + 1 + x.length + 1 + y.length := by
    simp [geomRender]
    omega
  rw [hs, hlen]
  unfold matchGeomLen
  have hd1 : digitRunLen (w ++ 'x' :: (h ++ ',' :: (x ++ ',' :: (y ++ t)))) = w.length :=
    digitRunLen_append (isDigitStr_all hw) (headNotDigit_cons _ (by decide))
  rw [hd1, length_ne_zero_of_ne_nil (isDigitStr_ne hw), List.drop_left]
  simp only [Bool.false_eq_true, if_false]
  have hd2 : digitRunLen (h ++ ',' :: (x ++ ',' :: (y ++ t))) = h.length :=
    digitRunLen_append (isDigitStr_all hh) (headNotDigit_cons _ (by decide))
  rw [hd2, length_ne_zero_of_ne_nil (isDigitStr_ne hh), List.drop_left]
  simp only [Bool.false_eq_true, if_false]
  have hd3 : digitRunLen (x ++ ',' :: (y ++ t)) = x.length :=
    digitRunLen_append (isDigitStr_all hx) (headNotDigit_cons _ (by decide))
  rw [hd3, length_ne_zero_of_ne_nil (isDigitStr_ne hx), List.drop_left]
  simp only [Bool.false_eq_true, if_false]
  have hd4 : digitRunLen (y ++ t) = y.length :=
    digitRunLen_append (isDigitStr_all hy) ht
  rw [hd4, length_ne_zero_of_ne_nil (isDigitStr_ne hy)]
  simp only [Bool.false_eq_true, if_false]

theorem drop_append_cons (u : Str) (ch : Char) (v : Str) :
    (u ++ ch :: v).drop (u.length + 1) = v := by
  have h1 : u ++ ch :: v = (u ++ [ch]) ++ v := by simp
  have h2 : (u ++ [ch]).length = u.length + 1 := by simp
  rw [h1, ← h2, List.drop_left]

theorem splitLayoutChildren_nil : splitLayoutChildren [] = [] :=
  splitLayoutChildren_none (by decide)

/-- What the splitter loop produces from the remainder after a child: a
separating comma resumes the loop on the rest, anything else (no geometry
match possible) ends it. -/
def splitTail : Str → List Str
  | ',' :: t => splitLayoutChildren t
  | _ => []

theorem splitTail_comma (t : Str) : splitTail (',' :: t) = splitLayoutChildren t := rfl

theorem splitTail_other {rc : Char} (rt : Str) (h : ¬ rc = ',') :
    splitTail (rc :: rt) = [] := by
  unfold splitTail
  split
  next heq => rw [List.cons.injEq] at heq; exact absurd heq.1 h
  next => rfl

/-- The tail of one iteration of the splitter on a child followed by `r`:
once the cursor lands exactly at the child's end, the child is cut out and
the loop continues after an optional separating comma. -/
theorem splitChildren_step_tail {s0 r : Str} (hr : headNotDigitB r = true)
    {G : Nat} (hm : matchGeomLen (s0 ++ r) = some G)
    (hcur : childEndCursor (s0 ++ r) G = s0.length)
    (hGlt : G < s0.length) :
    splitLayoutChildren (s0 ++ r) = s0 :: splitTail r := by
  have hnotle : ¬ (s0 ++ r).length ≤ G := by
    simp only [List.length_append]
    omega
  rw [splitLayoutChildren_cons hm hnotle, hcur, List.take_left]
  congr 1
  unfold childSkipCursor
  rw [hcur]
  cases r with
  | nil =>
    have hcond : (decide (s0.length < (s0 ++ ([] : Str)).length) &&
        ((s0 ++ ([] : Str)).getD s0.length ' ' == ',')) = false := by
      simp
    rw [hcond]
    simp only [Bool.false_eq_true, if_false, List.append_nil, List.drop_length]
    exact splitLayoutChildren_nil
  | cons rc rt =>
    have hget2 : (s0 ++ rc :: rt).getD s0.length ' ' = rc := by
      rw [getD_append_self]
      rfl
    have hlt : s0.length < (s0 ++ rc :: rt).length := by simp
    by_cases hrc : rc = ','
    · subst hrc
      have hb : ((s0 ++ ',' :: rt).getD s0.length ' ' == ',') = true := by
        rw [hget2]
        decide
      have hcond : (decide (s0.length < (s0 ++ ',' :: rt).length) &&
          ((s0 ++ ',' :: rt).getD s0.length ' ' == ',')) = true := by
        rw [hb, Bool.and_true, decide_eq_true_eq]
        exact hlt
      rw [hcond]
      simp only [if_true]
      rw [drop_append_cons, splitTail_comma]
    · have hb : ((s0 ++ rc :: rt).getD s0.length ' ' == ',') = false := by
        rw [hget2]
        exact beq_eq_false_iff_ne.mpr hrc
      have hcond : (decide (s0.length < (s0 ++ rc :: rt).length) &&
          ((s0 ++ rc :: rt).getD s0.length ' ' == ',')) = false := by
        rw [hb, Bool.and_false]
      rw [hcond]
      simp only [Bool.false_eq_true, if_false, List.drop_left]
      rw [splitLayoutChildren_none (matchGeomLen_none hr), splitTail_other rt hrc]

theorem renderChildren_depth (o c : Char) (hoc : bracketPair o c) (cs : List LayoutSyn)
    (hwf : wfChildren cs = true) :
    ∀ d, 1 ≤ d → minDepthOK o c d (renderChildren cs) = true ∧
      (renderChildren cs).foldl (stepD o c) d = d :=
  renderChildren_depth_of o c hoc cs (fun s _ => render_depth o c hoc s) hwf

/-- One full iteration of the splitter over one rendered well-formed child
followed by an arbitrary non-digit-headed remainder. -/
theorem splitChildren_step (cnode : LayoutSyn) (r : Str) (hwfc : wfB cnode = true)
    (hr : headNotDigitB r = true) :
    splitLayoutChildren (render cnode ++ r) = render cnode :: splitTail r := by
  cases cnode with
  | leaf w h x y i =>
    obtain ⟨hw, hh, hx, hy, hi⟩ := wfB_leaf hwfc
    have hshape : render (.leaf w h x y i) ++ r =
        geomRender w h x y ++ ',' :: (i ++ r) := by
      simp [render]
    have hG : matchGeomLen (render (.leaf w h x y i) ++ r) =
        some (geomRender w h x y).length := by
      rw [hshape]
      exact matchGeomLen_geom hw hh hx hy _ (headNotDigit_cons _ (by decide))
    have hs0len : (render (.leaf w h x y i)).length =
        (geomRender w h x y).length + 1 + i.length := by
      simp [render]
      omega
    apply splitChildren_step_tail hr hG
    · rw [hshape]
      unfold childEndCursor
      have hget : (geomRender w h x y ++ ',' :: (i ++ r)).getD
          (geomRender w h x y).length ' ' = ',' := by
        rw [getD_append_self]
        rfl
      rw [hget, if_pos (by decide), drop_append_cons,
        digitRunLen_append (isDigitStr_all hi) hr, hs0len]
    · rw [hs0len]
      omega
  | cols w h x y cs =>
    obtain ⟨hw, hh, hx, hy, hne, hcs⟩ := wfB_cols hwfc
    have hshape : render (.cols w h x y cs) ++ r =
        geomRender w h x y ++ '\x7b' :: (renderChildren cs ++ '\x7d' :: r) := by
      simp [render]
    have hG : matchGeomLen (render (.cols w h x y cs) ++ r) =
        some (geomRender w h x y).length := by
      rw [hshape]
      exact matchGeomLen_geom hw hh hx hy _ (headNotDigit_cons _ (by decide))
    have hs0len : (render (.cols w h x y cs)).length =
        (geomRender w h x y).length + 1 + (renderChildren cs).length + 1 := by
      simp [render]
      omega
    apply splitChildren_step_tail hr hG
    · rw [hshape]
      unfold childEndCursor
      have hget : (geomRender w h x y ++ '\x7b' :: (renderChildren cs ++ '\x7d' :: r)).getD
          (geomRender w h x y).length ' ' = '\x7b' := by
        rw [getD_append_self]
        rfl
      have hdep := renderChildren_depth '\x7b' '\x7d' (Or.inl ⟨rfl, rfl⟩) cs hcs 1 (by omega)
      rw [hget, if_neg (by decide), if_pos (by decide), drop_append_cons,
        scanBal_exact _ _ (by decide) r hdep.1 hdep.2, hs0len]
      omega
    · rw [hs0len]
      omega
  | rows w h x y cs =>
    obtain ⟨hw, hh, hx, hy, hne, hcs⟩ := wfB_rows hwfc
    have hshape : render (.rows w h x y cs) ++ r =
        geomRender w h x y ++ '[' :: (renderChildren cs ++ ']' :: r) := by
      simp [render]
    have hG : matchGeomLen (render (.rows w h x y cs) ++ r) =
        some (geomRender w h x y).length := by
      rw [hshape]
      exact matchGeomLen_geom hw hh hx hy _ (headNotDigit_cons _ (by decide))
    have hs0len : (render (.rows w h x y cs)).length =
        (geomRender w h x y).length + 1 + (renderChildren cs).length + 1 := by
      simp [render]
      omega
    apply splitChildren_step_tail hr hG
    · rw [hshape]
      unfold childEndCursor
      have hget : (geomRender w h x y ++ '[' :: (renderChildren cs ++ ']' :: r)).getD
          (geomRender w h x y).length ' ' = '[' := by
        rw [getD_append_self]
        rfl
      have hdep := renderChildren_depth '[' ']' (Or.inr ⟨rfl, rfl⟩) cs hcs 1 (by omega)
      rw [hget, if_neg (by decide), if_neg (by decide), if_pos (by decide), drop_append_cons,
        scanBal_exact _ _ (by decide) r hdep.1 hdep.2, hs0len]
      omega
    · rw [hs0len]
      omega

/-- The splitter recovers exactly the rendered children of a well-formed
nonempty child list, with any non-digit-headed remainder handled by
splitTail. -/
theorem split_renders_gen (cs : List LayoutSyn) (r : Str) (hne : cs ≠ [])
    (hwf : wfChildren cs = true) (hr : headNotDigitB r = true) :
    splitLayoutChildren (renderChildren cs ++ r) = cs.map render ++ splitTail r := by
  induction cs with
  | nil => exact absurd rfl hne
  | cons c rest ih =>
    simp only [wfChildren, Bool.and_eq_true] at hwf
    cases rest with
    | nil =>
      rw [renderChildren_one, splitChildren_step c r hwf.1 hr]
      simp
    | cons c2 rest2 =>
      rw [renderChildren_cons2]
      have hassoc : (render c ++ ',' :: renderChildren (c2 :: rest2)) ++ r =
          render c ++ ',' :: (renderChildren (c2 :: rest2) ++ r) := by simp
      rw [hassoc, splitChildren_step c (',' :: (renderChildren (c2 :: rest2) ++ r)) hwf.1
        (headNotDigit_cons _ (by decide)), splitTail_comma, ih (by simp) hwf.2]
      simp

/-- With no remainder, the splitter recovers exactly the rendered children. -/
theorem split_renders (cs : List LayoutSyn) (hne : cs ≠ [])
    (hwf : wfChildren cs = true) :
    splitLayoutChildren (renderChildren cs) = cs.map render := by
  have h := split_renders_gen cs [] hne hwf (by decide)
  simpa [splitTail] using h

theorem findIdx?_comma (u z : Str) (hu : ∀ ch ∈ u, (ch == ',') = false) :
    List.findIdx? (· == ',') (u ++ ',' :: z) = some u.length := by
  have key : ∀ i, List.findIdx? (· == ',') (u ++ ',' :: z) i = some (u.length + i) := by
    induction u with
    | nil =>
      intro i
      simp [List.findIdx?_cons]
    | cons ch rest ih =>
      intro i
      have hch := hu ch (by simp)
      simp only [List.cons_append, List.findIdx?_cons, hch, Bool.false_eq_true, if_false]
      rw [ih (fun x hx => hu x (by simp [hx])) (i + 1)]
      simp only [List.length_cons]
      congr 1
      omega
  simpa using key 0

theorem stripChecksum_keep {w h x y : Str} (hw : isDigitStr w = true)
    (hh : isDigitStr h = true) (t : Str) :
    stripChecksum (geomRender w h x y ++ t) = geomRender w h x y ++ t := by
  have hshape : geomRender w h x y ++ t =
      (w ++ 'x' :: h) ++ ',' :: (x ++ ',' :: (y ++ t)) := by
    simp [geomRender]
  have hu : ∀ ch ∈ w ++ 'x' :: h, (ch == ',') = false := by
    intro ch hch
    simp only [beq_eq_false_iff_ne, ne_eq]
    intro heq
    subst heq
    rcases List.mem_append.mp hch with hm | hm
    · exact absurd (List.all_eq_true.mp (isDigitStr_all hw) ',' hm) (by decide)
    · rcases List.mem_cons.mp hm with heq2 | hm
      · exact absurd heq2 (by decide)
      · exact absurd (List.all_eq_true.mp (isDigitStr_all hh) ',' hm) (by decide)
  have hidx : List.findIdx? (· == ',') (geomRender w h x y ++ t) =
      some (w ++ 'x' :: h).length := by
    rw [hshape]
    exact findIdx?_comma _ _ hu
  have htake : (geomRender w h x y ++ t).take (w ++ 'x' :: h).length = w ++ 'x' :: h := by
    rw [hshape]
    exact List.take_left _ _
  have hall : (w ++ 'x' :: h).all isHexLower = false :=
    List.all_eq_false.mpr ⟨'x', by simp, by decide⟩
  unfold stripChecksum
  rw [hidx]
  dsimp only
  rw [htake, hall, Bool.and_false]
  simp

theorem stripChecksum_strip {chk rest : Str} (hlen : chk.length = 4)
    (hhex : chk.all isHexLower = true) :
    stripChecksum (chk ++ ',' :: rest) = rest := by
  have hu : ∀ ch ∈ chk, (ch == ',') = false := by
    intro ch hch
    have hc := List.all_eq_true.mp hhex ch hch
    simp only [beq_eq_false_iff_ne, ne_eq]
    intro heq
    subst heq
    exact absurd hc (by decide)
  have hidx := findIdx?_comma chk rest hu
  unfold stripChecksum
  rw [hidx]
  dsimp only
  rw [List.take_left, hlen]
  simp only [beq_self_eq_true, Bool.true_and, hhex, if_true]
  rw [← hlen]
  exact drop_append_cons _ _ _

theorem atoi_digits {i : Str} (hi : isDigitStr i = true)
    (hle : digitsVal i ≤ int64Max) :
    atoiGo i = some (digitsVal i) := by
  cases i with
  | nil => exact absurd rfl (isDigitStr_ne hi)
  | cons c0 rest =>
    have hall := isDigitStr_all hi
    have hc0 : c0.isDigit = true := by
      simpa using List.all_eq_true.mp hall c0 (by simp)
    have h1 : (c0 == '+') = false := by
      simp only [beq_eq_false_iff_ne, ne_eq]
      intro heq
      subst heq
      exact absurd hc0 (by decide)
    have h2 : (c0 == '-') = false := by
      simp only [beq_eq_false_iff_ne, ne_eq]
      intro heq
      subst heq
      exact absurd hc0 (by decide)
    unfold atoiGo
    dsimp only
    rw [h1, h2]
    simp [hall, hle]

theorem parse_eq_leaf_ok {pm : List (Int × Str)} {layout0 : Str} {g : Nat} {content : Str}
    {idv : Int}
    (hm : matchGeomLen (stripChecksum layout0) = some g)
    (hr : (stripChecksum layout0).drop g = ',' :: content)
    (hid : atoiGo content = some idv) :
    parseTmuxLayout pm layout0 = .ok (.mk (lookupNameGo pm idv) [] []) := by
  rw [parseTmuxLayout.eq_def]
  split
  next hm2 => rw [hm2] at hm; cases hm
  next g2 hm2 =>
    rw [hm2] at hm
    injection hm with hg
    subst hg
    split
    next hr2 => rw [hr2] at hr; cases hr
    next fc ct hr2 =>
      rw [hr2] at hr
      injection hr with hfc hct
      subst hfc
      subst hct
      rw [if_pos (by decide), hid]
      unfold lookupNameGo
      cases hlk : pm.lookup idv <;> simp [hlk]

theorem parse_eq_braces_ok {pm : List (Int × Str)} {layout0 : Str} {g : Nat}
    {content : Str} {nodes : List LayoutNode}
    (hm : matchGeomLen (stripChecksum layout0) = some g)
    (hr : (stripChecksum layout0).drop g = '\x7b' :: content)
    (hlast : content.getLast? = some '\x7d')
    (hch : parseChildren pm (splitLayoutChildren content.dropLast) = .ok nodes) :
    parseTmuxLayout pm layout0 = .ok (.mk [] nodes []) := by
  rw [parseTmuxLayout.eq_def]
  split
  next hm2 => rw [hm2] at hm; cases hm
  next g2 hm2 =>
    rw [hm2] at hm
    injection hm with hg
    subst hg
    split
    next hr2 => rw [hr2] at hr; cases hr
    next fc ct hr2 =>
      rw [hr2] at hr
      injection hr with hfc hct
      subst hfc
      subst hct
      rw [if_neg (by decide), if_pos (by decide), hlast, hch]
      rfl

theorem parse_eq_brackets_ok {pm : List (Int × Str)} {layout0 : Str} {g : Nat}
    {content : Str} {nodes : List LayoutNode}
    (hm : matchGeomLen (stripChecksum layout0) = some g)
    (hr : (stripChecksum layout0).drop g = '[' :: content)
    (hlast : content.getLast? = some ']')
    (hch : parseChildren pm (splitLayoutChildren content.dropLast) = .ok nodes) :
    parseTmuxLayout pm layout0 = .ok (.mk [] [] nodes) := by
  rw [parseTmuxLayout.eq_def]
  split
  next hm2 => rw [hm2] at hm; cases hm
  next g2 hm2 =>
    rw [hm2] at hm
    injection hm with hg
    subst hg
    split
    next hr2 => rw [hr2] at hr; cases hr
    next fc ct hr2 =>
      rw [hr2] at hr
      injection hr with hfc hct
      subst hfc
      subst hct
      rw [if_neg (by decide), if_neg (by decide), if_pos (by decide), hlast, hch]
      rfl

theorem parse_eq_leaf_err {pm : List (Int × Str)} {layout0 : Str} {g : Nat} {content : Str}
    (hm : matchGeomLen (stripChecksum layout0) = some g)
    (hr : (stripChecksum layout0).drop g = ',' :: content)
    (hid : atoiGo content = none) :
    parseTmuxLayout pm layout0 = .error (str "invalid pane ID") := by
  rw [parseTmuxLayout.eq_def]
  split
  next hm2 => rw [hm2] at hm; cases hm
  next g2 hm2 =>
    rw [hm2] at hm
    injection hm with hg
    subst hg
    split
    next hr2 => rw [hr2] at hr; cases hr
    next fc ct hr2 =>
      rw [hr2] at hr
      injection hr with hfc hct
      subst hfc
      subst hct
      rw [if_pos (by decide), hid]

theorem parse_eq_braces_err {pm : List (Int × Str)} {layout0 : Str} {g : Nat}
    {content : Str} {e : Str}
    (hm : matchGeomLen (stripChecksum layout0) = some g)
    (hr : (stripChecksum layout0).drop g = '\x7b' :: content)
    (hlast : content.getLast? = some '\x7d')
    (hch : parseChildren pm (splitLayoutChildren content.dropLast) = .error e) :
    parseTmuxLayout pm layout0 = .error e := by
  rw [parseTmuxLayout.eq_def]
  split
  next hm2 => rw [hm2] at hm; cases hm
  next g2 hm2 =>
    rw [hm2] at hm
    injection hm with hg
    subst hg
    split
    next hr2 => rw [hr2] at hr; cases hr
    next fc ct hr2 =>
      rw [hr2] at hr
      injection hr with hfc hct
      subst hfc
      subst hct
      rw [if_neg (by decide), if_pos (by decide), hlast, hch]
      rfl

theorem parse_eq_braces_crash {pm : List (Int × Str)} {layout0 : Str} {g : Nat}
    (hm : matchGeomLen (stripChecksum layout0) = some g)
    (hr : (stripChecksum layout0).drop g = ['\x7b']) :
    parseTmuxLayout pm layout0 = .crash := by
  rw [parseTmuxLayout.eq_def]
  split
  next hm2 => rw [hm2] at hm; cases hm
  next g2 hm2 =>
    rw [hm2] at hm
    injection hm with hg
    subst hg
    split
    next hr2 => rw [hr2] at hr; cases hr
    next fc ct hr2 =>
      rw [hr2] at hr
      injection hr with hfc hct
      subst hfc
      subst hct
      rw [if_neg (by decide), if_pos (by decide)]
      rfl

theorem parseChildren_nil (pm : List (Int × Str)) : parseChildren pm [] = .ok [] := by
  rw [parseChildren.eq_def]

theorem parseChildren_cons (pm : List (Int × Str)) (c : Str) (cs : List Str) :
    parseChildren pm (c :: cs) =
      (match parseTmuxLayout pm c with
       | .error e => .error e
       | .crash => .crash
       | .ok node =>
         match parseChildren pm cs with
         | .error e => .error e
         | .crash => .crash
         | .ok nodes => .ok (node :: nodes)) := by
  rw [parseChildren.eq_def]

theorem parseChildren_map (pm : List (Int × Str)) (cs : List LayoutSyn)
    (hmem : ∀ s ∈ cs, wfB s = true → idsOK s = true →
      parseTmuxLayout pm (render s) = .ok (mirror pm s))
    (hwf : wfChildren cs = true) (hids : idsOKChildren cs = true) :
    parseChildren pm (cs.map render) = .ok (mirrorChildren pm cs) := by
  induction cs with
  | nil => simpa [mirrorChildren] using parseChildren_nil pm
  | cons c rest ih =>
    simp only [wfChildren, Bool.and_eq_true] at hwf
    simp only [idsOKChildren, Bool.and_eq_true] at hids
    rw [List.map_cons, parseChildren_cons, hmem c (by simp) hwf.1 hids.1,
      ih (fun s hs => hmem s (by simp [hs])) hwf.2 hids.2]
    rfl

theorem parse_render (pm : List (Int × Str)) :
    ∀ syn, wfB syn = true → idsOK syn = true →
      parseTmuxLayout pm (render syn) = .ok (mirror pm syn) := by
  intro syn
  induction syn using layoutSyn_strong_ind with
  | hleaf w h x y i =>
    intro hwf hids
    have hle : digitsVal i ≤ int64Max := by
      simp only [idsOK, decide_eq_true_eq] at hids
      exact hids
    obtain ⟨hw, hh, hx, hy, hi⟩ := wfB_leaf hwf
    have hshape : render (.leaf w h x y i) = geomRender w h x y ++ ',' :: i := by
      simp [render]
    have hstrip : stripChecksum (render (.leaf w h x y i)) = render (.leaf w h x y i) := by
      rw [hshape]
      exact stripChecksum_keep hw hh _
    have hm : matchGeomLen (stripChecksum (render (.leaf w h x y i))) =
        some (geomRender w h x y).length := by
      rw [hstrip, hshape]
      exact matchGeomLen_geom hw hh hx hy _ (headNotDigit_cons _ (by decide))
    have hdrop : (stripChecksum (render (.leaf w h x y i))).drop
        (geomRender w h x y).length = ',' :: i := by
      rw [hstrip, hshape]
      exact List.drop_left _ _
    rw [parse_eq_leaf_ok hm hdrop (atoi_digits hi hle)]
    rfl
  | hcols w h x y cs ih =>
    intro hwf hids
    have hidcs : idsOKChildren cs = true := hids
    obtain ⟨hw, hh, hx, hy, hne, hcs⟩ := wfB_cols hwf
    have hshape : render (.cols w h x y cs) =
        geomRender w h x y ++ '\x7b' :: (renderChildren cs ++ ['\x7d']) := by
      simp [render]
    have hstrip : stripChecksum (render (.cols w h x y cs)) = render (.cols w h x y cs) := by
      rw [hshape]
      exact stripChecksum_keep hw hh _
    have hm : matchGeomLen (stripChecksum (render (.cols w h x y cs))) =
        some (geomRender w h x y).length := by
      rw [hstrip, hshape]
      exact matchGeomLen_geom hw hh hx hy _ (headNotDigit_cons _ (by decide))
    have hdrop : (stripChecksum (render (.cols w h x y cs))).drop
        (geomRender w h x y).length = '\x7b' :: (renderChildren cs ++ ['\x7d']) := by
      rw [hstrip, hshape]
      exact List.drop_left _ _
    have hlast : (renderChildren cs ++ ['\x7d']).getLast? = some '\x7d' := by simp
    have hch : parseChildren pm
        (splitLayoutChildren (renderChildren cs ++ ['\x7d']).dropLast) =
        .ok (mirrorChildren pm cs) := by
      have hdl : (renderChildren cs ++ ['\x7d']).dropLast = renderChildren cs := by simp
      rw [hdl, split_renders cs hne hcs]
      exact parseChildren_map pm cs (fun s hs => ih s hs) hcs hidcs
    rw [parse_eq_braces_ok hm hdrop hlast hch]
    rfl
  | hrows w h x y cs ih =>
    intro hwf hids
    have hidcs : idsOKChildren cs = true := hids
    obtain ⟨hw, hh, hx, hy, hne, hcs⟩ := wfB_rows hwf
    have hshape : render (.rows w h x y cs) =
        geomRender w h x y ++ '[' :: (renderChildren cs ++ [']']) := by
      simp [render]
    have hstrip : stripChecksum (render (.rows w h x y cs)) = render (.rows w h x y cs) := by
      rw [hshape]
      exact stripChecksum_keep hw hh _
    have hm : matchGeomLen (stripChecksum (render (.rows w h x y cs))) =
        some (geomRender w h x y).length := by
      rw [hstrip, hshape]
      exact matchGeomLen_geom hw hh hx hy _ (headNotDigit_cons _ (by decide))
    have hdrop : (stripChecksum (render (.rows w h x y cs))).drop
        (geomRender w h x y).length = '[' :: (renderChildren cs ++ [']']) := by
      rw [hstrip, hshape]
      exact List.drop_left _ _
    have hlast : (renderChildren cs ++ [']']).getLast? = some ']' := by simp
    have hch : parseChildren pm
        (splitLayoutChildren (renderChildren cs ++ [']']).dropLast) =
        .ok (mirrorChildren pm cs) := by
      have hdl : (renderChildren cs ++ [']']).dropLast = renderChildren cs := by simp
      rw [hdl, split_renders cs hne hcs]
      exact parseChildren_map pm cs (fun s hs => ih s hs) hcs hidcs
    rw [parse_eq_brackets_ok hm hdrop hlast hch]
    rfl

theorem lookup_val_ne {pm : List (Int × Str)} (hpm : ∀ pr ∈ pm, pr.2 ≠ ([] : Str))
    {k : Int} {v : Str} (h : pm.lookup k = some v) : v ≠ [] := by
  induction pm with
  | nil => cases h
  | cons pr rest ih =>
    simp only [List.lookup] at h
    split at h
    · injection h with h
      subst h
      exact hpm pr (by simp)
    · exact ih (fun x hx => hpm x (by simp [hx])) h

theorem lookupNameGo_ne {pm : List (Int × Str)} (hpm : ∀ pr ∈ pm, pr.2 ≠ ([] : Str))
    (id : Int) : lookupNameGo pm id ≠ [] := by
  unfold lookupNameGo
  split
  next name hlk => exact lookup_val_ne hpm hlk
  next => simp [str]

theorem mirror_leafNames (pm : List (Int × Str)) (hpm : ∀ pr ∈ pm, pr.2 ≠ ([] : Str)) :
    ∀ syn, wfB syn = true →
      leafNames (mirror pm syn) = (synIDs syn).map (fun (n : Nat) => lookupNameGo pm (Int.ofNat n)) := by
  have hlist : ∀ (cs : List LayoutSyn),
      (∀ s ∈ cs, wfB s = true →
        leafNames (mirror pm s) = (synIDs s).map (fun (n : Nat) => lookupNameGo pm (Int.ofNat n))) →
      wfChildren cs = true →
      leafNamesList (mirrorChildren pm cs) =
        (synIDsList cs).map (fun (n : Nat) => lookupNameGo pm (Int.ofNat n)) := by
    intro cs
    induction cs with
    | nil => intro _ _; rfl
    | cons c rest ih =>
      intro hmem hwf
      simp only [wfChildren, Bool.and_eq_true] at hwf
      have h1 := hmem c (by simp) hwf.1
      have h2 := ih (fun s hs => hmem s (by simp [hs])) hwf.2
      simp only [mirrorChildren, leafNamesList, synIDsList, List.map_append, h1, h2]
  intro syn
  induction syn using layoutSyn_strong_ind with
  | hleaf w h x y i =>
    intro hwf
    have hne : lookupNameGo pm ((digitsVal i : Nat) : Int) ≠ [] := lookupNameGo_ne hpm _
    simp [mirror, leafNames, synIDs, leafNameOf, hne]
  | hcols w h x y cs ih =>
    intro hwf
    obtain ⟨_, _, _, _, _, hcs⟩ := wfB_cols hwf
    simp only [mirror, synIDs, leafNames, ne_eq, not_true_eq_false, if_false]
    rw [hlist cs (fun s hs => ih s hs) hcs]
    simp [leafNamesList]
  | hrows w h x y cs ih =>
    intro hwf
    obtain ⟨_, _, _, _, _, hcs⟩ := wfB_rows hwf
    simp only [mirror, synIDs, leafNames, ne_eq, not_true_eq_false, if_false]
    rw [hlist cs (fun s hs => ih s hs) hcs]
    simp [leafNamesList]

theorem parse_strip_congr (pm : List (Int × Str)) {l1 l2 : Str}
    (h : stripChecksum l1 = stripChecksum l2) :
    parseTmuxLayout pm l1 = parseTmuxLayout pm l2 := by
  conv_lhs => rw [parseTmuxLayout.eq_def]
  conv_rhs => rw [parseTmuxLayout.eq_def]
  rw [h]

theorem stripChecksum_render {syn : LayoutSyn} (hwf : wfB syn = true) :
    stripChecksum (render syn) = render syn := by
  cases syn with
  | leaf w h x y i =>
    obtain ⟨hw, hh, _, _, _⟩ := wfB_leaf hwf
    have hshape : render (.leaf w h x y i) = geomRender w h x y ++ ',' :: i := by
      simp [render]
    rw [hshape]
    exact stripChecksum_keep hw hh _
  | cols w h x y cs =>
    obtain ⟨hw, hh, _, _, _, _⟩ := wfB_cols hwf
    have hshape : render (.cols w h x y cs) =
        geomRender w h x y ++ '\x7b' :: (renderChildren cs ++ ['\x7d']) := by
      simp [render]
    rw [hshape]
    exact stripChecksum_keep hw hh _
  | rows w h x y cs =>
    obtain ⟨hw, hh, _, _, _, _⟩ := wfB_rows hwf
    have hshape : render (.rows w h x y cs) =
        geomRender w h x y ++ '[' :: (renderChildren cs ++ [']']) := by
      simp [render]
    rw [hshape]
    exact stripChecksum_keep hw hh _

/-- C1 (amended): decoding a well-formed native layout string whose pane ID
values all fit in Go's 64-bit int succeeds with the tree that mirrors its
brace/bracket nesting (with or without a 4-hex-digit checksum prefix), and
the decoded tree's depth-first leaf-name sequence is the string's
left-to-right pane ID sequence resolved through the pane map, unknown IDs
falling back to the `unknown-pane-<ID>` placeholder. The int bound is
necessary: strconv.Atoi range-errors on a larger ID and decoding fails
(see the counterexample). -/
theorem claim_C1 (pm : List (Int × Str)) (syn : LayoutSyn) (chk : Str)
    (hwf : wfB syn = true) (hids : idsOK syn = true)
    (hlen : chk.length = 4) (hhex : chk.all isHexLower = true)
    (hpm : ∀ pr ∈ pm, pr.2 ≠ ([] : Str)) :
    parseTmuxLayout pm (render syn) = .ok (mirror pm syn) ∧
    parseTmuxLayout pm (chk ++ ',' :: render syn) = .ok (mirror pm syn) ∧
    leafNames (mirror pm syn) =
      (synIDs syn).map (fun (n : Nat) => lookupNameGo pm (Int.ofNat n)) := by
  refine ⟨parse_render pm syn hwf hids, ?_, mirror_leafNames pm hpm syn hwf⟩
  have hstrip : stripChecksum (chk ++ ',' :: render syn) = stripChecksum (render syn) := by
    rw [stripChecksum_strip hlen hhex, stripChecksum_render hwf]
  rw [parse_strip_congr pm hstrip]
  exact parse_render pm syn hwf hids

/-- The leaf of claim C1's counterexample: geometry `1x1,0,0` and the
20-digit pane ID 99999999999999999999, past the 64-bit int maximum
9223372036854775807. -/
def c1BadSyn : LayoutSyn :=
  .leaf (str "1") (str "1") (str "0") (str "0") (str "99999999999999999999")

/-- C1 counterexample: a well-formed native layout string on which
decoding fails. Its pane ID exceeds the 64-bit int range, so strconv.Atoi
returns a range error and parseTmuxLayout reports `invalid pane ID`
instead of succeeding. -/
theorem claim_C1_counterexample :
    wfB c1BadSyn = true ∧
    parseTmuxLayout [] (render c1BadSyn) = .error (str "invalid pane ID") := by
  refine ⟨by decide, ?_⟩
  have hm : matchGeomLen (stripChecksum (render c1BadSyn)) = some 7 := by decide
  have hr : (stripChecksum (render c1BadSyn)).drop 7 =
      ',' :: str "99999999999999999999" := by decide
  have hid : atoiGo (str "99999999999999999999") = none := by decide
  exact parse_eq_leaf_err hm hr hid

/-- The syntax of claim C1's witness: a columns container holding a leaf
with ID 0 and a rows container of leaves with IDs 1 and 9. -/
def c1Syn : LayoutSyn :=
  .cols (str "159") (str "48") (str "0") (str "0")
    [.leaf (str "79") (str "48") (str "0") (str "0") (str "0"),
     .rows (str "79") (str "48") (str "80") (str "0")
       [.leaf (str "79") (str "24") (str "80") (str "0") (str "1"),
        .leaf (str "79") (str "23") (str "80") (str "25") (str "9")]]

/-- The pane map of claim C1's witness: IDs 0 and 1 known, 9 unknown. -/
def c1Pm : List (Int × Str) := [(0, str "main-pane-0"), (1, str "main-pane-1")]

theorem claim_C1_witness :
    wfB c1Syn = true ∧ idsOK c1Syn = true ∧
    parseTmuxLayout c1Pm (render c1Syn) = .ok (mirror c1Pm c1Syn) ∧
    parseTmuxLayout c1Pm (str "abcd" ++ ',' :: render c1Syn) = .ok (mirror c1Pm c1Syn) ∧
    leafNames (mirror c1Pm c1Syn) =
      (synIDs c1Syn).map (fun (n : Nat) => lookupNameGo c1Pm (Int.ofNat n)) := by
  have h := claim_C1 c1Pm c1Syn (str "abcd") (by decide) (by decide) (by decide) (by decide)
    (by decide)
  exact ⟨by decide, by decide, h.1, h.2.1, h.2.2⟩

/-- C9 (amended): when a container's inner content is well-formed children
— with pane ID values inside Go's 64-bit int range — followed by a comma
and a segment with no leading geometry token, the splitter stops there and
silently discards the segment, and the whole container still decodes
successfully with only the preceding children. The int bound is necessary:
with an over-range child ID, strconv.Atoi range-errors and the container
decode fails (see the counterexample). -/
theorem claim_C9 (pm : List (Int × Str)) (w h x y : Str) (cs : List LayoutSyn) (t : Str)
    (hw : isDigitStr w = true) (hh : isDigitStr h = true) (hx : isDigitStr x = true)
    (hy : isDigitStr y = true) (hne : cs ≠ []) (hwf : wfChildren cs = true)
    (hids : idsOKChildren cs = true) (ht : matchGeomLen t = none) :
    splitLayoutChildren (renderChildren cs ++ ',' :: t) = cs.map render ∧
    parseTmuxLayout pm
        (geomRender w h x y ++ '\x7b' :: ((renderChildren cs ++ ',' :: t) ++ ['\x7d'])) =
      .ok (.mk [] (mirrorChildren pm cs) []) := by
  have hsplit : splitLayoutChildren (renderChildren cs ++ ',' :: t) = cs.map render := by
    rw [split_renders_gen cs (',' :: t) hne hwf (headNotDigit_cons _ (by decide)),
      splitTail_comma, splitLayoutChildren_none ht]
    simp
  refine ⟨hsplit, ?_⟩
  have hstrip : stripChecksum
      (geomRender w h x y ++ '\x7b' :: ((renderChildren cs ++ ',' :: t) ++ ['\x7d'])) =
      geomRender w h x y ++ '\x7b' :: ((renderChildren cs ++ ',' :: t) ++ ['\x7d']) :=
    stripChecksum_keep hw hh _
  have hm : matchGeomLen (stripChecksum
      (geomRender w h x y ++ '\x7b' :: ((renderChildren cs ++ ',' :: t) ++ ['\x7d']))) =
      some (geomRender w h x y).length := by
    rw [hstrip]
    exact matchGeomLen_geom hw hh hx hy _ (headNotDigit_cons _ (by decide))
  have hdrop : (stripChecksum
      (geomRender w h x y ++ '\x7b' :: ((renderChildren cs ++ ',' :: t) ++ ['\x7d']))).drop
      (geomRender w h x y).length =
      '\x7b' :: ((renderChildren cs ++ ',' :: t) ++ ['\x7d']) := by
    rw [hstrip]
    exact List.drop_left _ _
  have hlast : ((renderChildren cs ++ ',' :: t) ++ ['\x7d']).getLast? = some '\x7d' :=
    List.getLast?_concat _
  have hch : parseChildren pm
      (splitLayoutChildren ((renderChildren cs ++ ',' :: t) ++ ['\x7d']).dropLast) =
      .ok (mirrorChildren pm cs) := by
    have hdl : ((renderChildren cs ++ ',' :: t) ++ ['\x7d']).dropLast =
        renderChildren cs ++ ',' :: t := List.dropLast_concat
    rw [hdl, hsplit]
    exact parseChildren_map pm cs (fun s _ hw2 hid2 => parse_render pm s hw2 hid2) hwf hids
  exact parse_eq_braces_ok hm hdrop hlast hch

/-- The child list of claim C9's witness: one leaf with pane ID 3. -/
def c9Kids : List LayoutSyn := [.leaf (str "40") (str "50") (str "0") (str "0") (str "3")]

theorem claim_C9_witness :
    matchGeomLen (str "ZZZ") = none ∧
    splitLayoutChildren (renderChildren c9Kids ++ ',' :: str "ZZZ") = c9Kids.map render ∧
    parseTmuxLayout []
        (geomRender (str "100") (str "50") (str "0") (str "0") ++
          '\x7b' :: ((renderChildren c9Kids ++ ',' :: str "ZZZ") ++ ['\x7d'])) =
      .ok (.mk [] (mirrorChildren [] c9Kids) []) := by
  have h := claim_C9 [] (str "100") (str "50") (str "0") (str "0") c9Kids (str "ZZZ")
    (by decide) (by decide) (by decide) (by decide) (by simp [c9Kids]) (by decide) (by decide)
    (by decide)
  exact ⟨by decide, h.1, h.2⟩

/-- The child list of claim C9's counterexample: one well-formed leaf whose
20-digit pane ID 99999999999999999999 exceeds the 64-bit int range. -/
def c9BadKids : List LayoutSyn :=
  [.leaf (str "40") (str "50") (str "0") (str "0") (str "99999999999999999999")]

/-- C9 counterexample: a container whose inner content is a well-formed
child followed by a comma and a non-geometry segment, yet decoding does
not succeed with the preceding children: the child's pane ID exceeds the
64-bit int range, strconv.Atoi range-errors, and the container decode
returns `invalid pane ID`. -/
theorem claim_C9_counterexample :
    wfChildren c9BadKids = true ∧ matchGeomLen (str "ZZZ") = none ∧
    parseTmuxLayout []
        (geomRender (str "100") (str "50") (str "0") (str "0") ++
          '\x7b' :: ((renderChildren c9BadKids ++ ',' :: str "ZZZ") ++ ['\x7d'])) =
      .error (str "invalid pane ID") := by
  refine ⟨by decide, by decide, ?_⟩
  have hsplit : splitLayoutChildren (renderChildren c9BadKids ++ ',' :: str "ZZZ") =
      c9BadKids.map render := by
    rw [split_renders_gen c9BadKids (',' :: str "ZZZ") (by simp [c9BadKids]) (by decide)
      (headNotDigit_cons _ (by decide)), splitTail_comma,
      splitLayoutChildren_none (by decide)]
    simp
  have hstrip : stripChecksum
      (geomRender (str "100") (str "50") (str "0") (str "0") ++
        '\x7b' :: ((renderChildren c9BadKids ++ ',' :: str "ZZZ") ++ ['\x7d'])) =
      geomRender (str "100") (str "50") (str "0") (str "0") ++
        '\x7b' :: ((renderChildren c9BadKids ++ ',' :: str "ZZZ") ++ ['\x7d']) :=
    stripChecksum_keep (by decide) (by decide) _
  have hm : matchGeomLen (stripChecksum
      (geomRender (str "100") (str "50") (str "0") (str "0") ++
        '\x7b' :: ((renderChildren c9BadKids ++ ',' :: str "ZZZ") ++ ['\x7d']))) =
      some (geomRender (str "100") (str "50") (str "0") (str "0")).length := by
    rw [hstrip]
    exact matchGeomLen_geom (by decide) (by decide) (by decide) (by decide) _
      (headNotDigit_cons _ (by decide))
  have hdrop : (stripChecksum
      (geomRender (str "100") (str "50") (str "0") (str "0") ++
        '\x7b' :: ((renderChildren c9BadKids ++ ',' :: str "ZZZ") ++ ['\x7d']))).drop
      (geomRender (str "100") (str "50") (str "0") (str "0")).length =
      '\x7b' :: ((renderChildren c9BadKids ++ ',' :: str "ZZZ") ++ ['\x7d']) := by
    rw [hstrip]
    exact List.drop_left _ _
  have hlast : ((renderChildren c9BadKids ++ ',' :: str "ZZZ") ++ ['\x7d']).getLast? =
      some '\x7d' := List.getLast?_concat _
  have hbad : parseTmuxLayout []
      (render (.leaf (str "40") (str "50") (str "0") (str "0")
        (str "99999999999999999999"))) = .error (str "invalid pane ID") := by
    have hm2 : matchGeomLen (stripChecksum
        (render (.leaf (str "40") (str "50") (str "0") (str "0")
          (str "99999999999999999999")))) = some 9 := by decide
    have hr2 : (stripChecksum
        (render (.leaf (str "40") (str "50") (str "0") (str "0")
          (str "99999999999999999999")))).drop 9 =
        ',' :: str "99999999999999999999" := by decide
    exact parse_eq_leaf_err hm2 hr2 (by decide)
  have hch : parseChildren []
      (splitLayoutChildren
        ((renderChildren c9BadKids ++ ',' :: str "ZZZ") ++ ['\x7d']).dropLast) =
      .error (str "invalid pane ID") := by
    have hdl : ((renderChildren c9BadKids ++ ',' :: str "ZZZ") ++ ['\x7d']).dropLast =
        renderChildren c9BadKids ++ ',' :: str "ZZZ" := List.dropLast_concat
    rw [hdl, hsplit]
    show parseChildren [] [render (.leaf (str "40") (str "50") (str "0") (str "0")
      (str "99999999999999999999"))] = .error (str "invalid pane ID")
    rw [parseChildren_cons, hbad]
  exact parse_eq_braces_err hm hdrop hlast hch

/-- C6: refuted — capture can abort. On the layout string `10x10,0,0\x7b`
the geometry parses and the opening brace is the final character, so the
container content is empty and the Go check `content[len(content)-1]`
indexes position -1: a runtime panic that nothing in the repository
recovers from. parseTmuxLayout crashes instead of returning an error, and
the window never receives the flat fallback layout — session capture
aborts, contradicting the never-abort promise. -/
theorem claim_C6 :
    parseTmuxLayout [] (str "10x10,0,0\x7b") = .crash ∧
    captureWindowLayout [] (str "10x10,0,0\x7b") [⟨str "p0", [], [], []⟩] = none := by
  have hm : matchGeomLen (stripChecksum (str "10x10,0,0\x7b")) = some 9 := by decide
  have hr : (stripChecksum (str "10x10,0,0\x7b")).drop 9 = ['\x7b'] := by decide
  have h : parseTmuxLayout [] (str "10x10,0,0\x7b") = .crash :=
    parse_eq_braces_crash hm hr
  refine ⟨h, ?_⟩
  unfold captureWindowLayout
  rw [h]
